import Mathlib

/-!
Verification of the runtime schema engine of the Auto-Generated CRUD + RBAC
platform (NestJS backend).  The TypeScript sources are shallowly embedded:

* JavaScript runtime values are modelled by `JsValue`; JS numbers are modelled
  as `Int` (every concrete value exercised by the authorization and CRUD paths
  is an integer id); `Number(...)` on strings is modelled by an integer
  parse after trimming (with the JS special case that an empty/whitespace
  string converts to `0`).
* NestJS exceptions (`BadRequestException`, `NotFoundException`,
  `ForbiddenException`, `HttpException` 500) are modelled by error inductives
  carrying structured reasons instead of message strings.
* The database is modelled as explicit state: a map from table name to its
  `information_schema.columns` rows, plus a log of executed DDL statements.
  The catalog is modelled as reporting the canonical PostgreSQL name of each
  created SQL type (`TEXT` ↦ `text`, `FLOAT` ↦ `double precision`, `BOOLEAN` ↦
  `boolean`, `TIMESTAMP WITH TIME ZONE` ↦ `timestamp with time zone`,
  `INTEGER` ↦ `integer`) and as reporting stored column default expressions in
  PostgreSQL's canonicalized form, not as the service quoted them: a string
  default `'x'` on a `text` column is reported as `'x'::text`, a boolean
  `TRUE`/`FALSE` as lowercase `true`/`false`, and a date literal with its
  `::timestamp with time zone` cast (numeric literals are reported as
  written).
-/

namespace CrudRbac

/-- Decidable equality for `Except`, so concrete service results can be
checked by `decide`. -/
instance {ε α : Type} [DecidableEq ε] [DecidableEq α] :
    DecidableEq (Except ε α)
  | .error a, .error b =>
    if h : a = b then .isTrue (by rw [h])
    else .isFalse (by intro hc; cases hc; exact h rfl)
  | .error _, .ok _ => .isFalse (by intro hc; cases hc)
  | .ok _, .error _ => .isFalse (by intro hc; cases hc)
  | .ok a, .ok b =>
    if h : a = b then .isTrue (by rw [h])
    else .isFalse (by intro hc; cases hc; exact h rfl)

/-- A JavaScript runtime value as it appears in request payloads and rows. -/
inductive JsValue where
  | vNull
  | vUndef
  | vStr (s : String)
  | vNum (n : Int)
  | vBool (b : Bool)
  deriving DecidableEq, Repr

/-- JS truthiness (`Boolean(v)`).  Numbers are modelled as `Int`, so the only
falsy number is `0`. -/
def jsTruthy : JsValue → Bool
  | .vNull => false
  | .vUndef => false
  | .vStr s => s ≠ ""
  | .vNum n => n ≠ 0
  | .vBool b => b

/-! String primitives, re-implemented structurally over `String.data` so
that every definition evaluates inside the kernel (`String.toLower`,
`trim`, `toInt?` and friends are compiled functions whose well-founded
recursions do not reduce definitionally).  Case mapping is ASCII, as in the
source's identifier/keyword handling. -/

/-- ASCII lower-casing of one character. -/
def charToLower (c : Char) : Char :=
  if 65 ≤ c.toNat ∧ c.toNat ≤ 90 then Char.ofNat (c.toNat + 32) else c

/-- ASCII upper-casing of one character. -/
def charToUpper (c : Char) : Char :=
  if 97 ≤ c.toNat ∧ c.toNat ≤ 122 then Char.ofNat (c.toNat - 32) else c

/-- `String.toLowerCase()` (ASCII). -/
def strLower (s : String) : String := String.mk (s.data.map charToLower)

/-- `String.toUpperCase()` (ASCII). -/
def strUpper (s : String) : String := String.mk (s.data.map charToUpper)

/-- JS whitespace for `trim`. -/
def isJsWs (c : Char) : Bool := c = ' ' ∨ c = '\t' ∨ c = '\n' ∨ c = '\r'

/-- `String.trim()`. -/
def strTrim (s : String) : String :=
  String.mk (((s.data.dropWhile isJsWs).reverse.dropWhile isJsWs).reverse)

/-- Parse a nonempty all-digit run. -/
def strToNat? (cs : List Char) : Option Nat :=
  if cs ≠ [] ∧ cs.all Char.isDigit then
    some (cs.foldl (fun n c => n * 10 + (c.toNat - 48)) 0)
  else none

/-- Integer parse (optional leading minus). -/
def strToInt? (s : String) : Option Int :=
  match s.data with
  | '-' :: rest => (strToNat? rest).map (fun n => -(n : Int))
  | cs => (strToNat? cs).map (fun n => (n : Int))

/-- `Number(s)` for a string, modelled over `Int`: empty/whitespace converts to
`0`, otherwise integer parse; `none` models `NaN`.  (JS also accepts
fractional and exponential forms; the model is integer-only, which covers
every value the id/owner/default paths handle.) -/
def jsStrToNumber (s : String) : Option Int :=
  let t := strTrim s
  if t = "" then some 0 else strToInt? t

/-- `Number(v)`; `none` models `NaN`. -/
def jsToNumber : JsValue → Option Int
  | .vNull => some 0
  | .vUndef => none
  | .vStr s => jsStrToNumber s
  | .vNum n => some n
  | .vBool b => some (if b then 1 else 0)

/-- `String(v)`. -/
def jsToString : JsValue → String
  | .vNull => "null"
  | .vUndef => "undefined"
  | .vStr s => s
  | .vNum n => toString n
  | .vBool b => if b then "true" else "false"

/-! ### Association lists

Request payloads, rows, and the in-memory caches are string-keyed JS objects /
`Map`s; we model them as association lists with first-match lookup. -/

/-- Lookup in an association list (first match wins, as for JS object keys). -/
def lookupA {α : Type} (l : List (String × α)) (k : String) : Option α :=
  (l.find? (fun p => p.1 = k)).map (fun p => p.2)

/-- Set a key: replace in place when present (JS object assignment keeps key
order), append otherwise. -/
def setA {α : Type} (l : List (String × α)) (k : String) (v : α) :
    List (String × α) :=
  if (lookupA l k).isSome then
    l.map (fun p => if p.1 = k then (k, v) else p)
  else l ++ [(k, v)]

/-- Remove all entries for a key (`Map.delete`). -/
def eraseA {α : Type} (l : List (String × α)) (k : String) :
    List (String × α) :=
  l.filter (fun p => p.1 ≠ k)

/-- The keys of an association list. -/
def keysA {α : Type} (l : List (String × α)) : List String :=
  l.map (fun p => p.1)

/-! ### The declarative data model (`model.types.ts`) -/

/-- `FieldType` from `model.types.ts`. -/
inductive FieldType where
  | string
  | number
  | boolean
  | date
  | relation
  deriving DecidableEq, Repr

/-- `FieldDefinition` from `model.types.ts`; `none` models an absent
(`undefined`) optional property. -/
structure FieldDefinition where
  name : String
  type : FieldType
  required : Bool := false
  unique : Bool := false
  default : Option JsValue := none
  targetModel : Option String := none
  deriving DecidableEq, Repr

/-- `ModelDefinition` from `model.types.ts`.  The rbac policy is an
association list from role name to permission strings. -/
structure ModelDefinition where
  name : String
  tableName : Option String := none
  ownerField : Option String := none
  fields : List FieldDefinition
  rbac : Option (List (String × List String)) := none
  deriving DecidableEq, Repr

/-- One row of `information_schema.columns` (`DbColumnInfo`). -/
structure DbColumnInfo where
  column_name : String
  data_type : String
  is_nullable : String
  column_default : Option String
  deriving DecidableEq, Repr

/-- The field names of a model. -/
def fieldNames (md : ModelDefinition) : List String :=
  md.fields.map (fun f => f.name)

/-! ### Access Decision Point (`rbac.guard.ts`, `RbacGuard.canActivate`) -/

/-- The JWT claims attached to the request (`request.user`): `role` and the
numeric identity `sub`. -/
structure UserClaims where
  role : String
  sub : Int
  deriving DecidableEq, Repr

/-- Outcome of `RbacGuard.canActivate`: `allow` models returning `true`, the
other constructors model the exceptions the guard (or the `findOne` it awaits)
throws. -/
inductive GuardOutcome where
  | allow
  | forbiddenMissingAuth
  | forbiddenRole (role perm model : String)
  | badRequestMissingId
  | notFoundModel
  | notFoundRecord
  | forbiddenNotOwner
  deriving DecidableEq, Repr

/-- The HTTP-verb → permission switch in `canActivate`; `none` models the
`default: return true` branch. -/
def requiredPermissionOf (method : String) : Option String :=
  if method = "POST" then some "create"
  else if method = "GET" then some "read"
  else if method = "PUT" then some "update"
  else if method = "PATCH" then some "update"
  else if method = "DELETE" then some "delete"
  else none

/-- `modelDef.rbac?.[userRole] || []`. -/
def rolePermissionsOf (md : ModelDefinition) (role : String) : List String :=
  match md.rbac with
  | none => []
  | some policy => (lookupA policy role).getD []

/-- `rolePermissions.includes(requiredPermission) || rolePermissions.includes('all')`. -/
def hasRolePermission (md : ModelDefinition) (role perm : String) : Bool :=
  (rolePermissionsOf md role).contains perm ||
    (rolePermissionsOf md role).contains "all"

/-- `RbacGuard.canActivate`, shallowly embedded.

* `registry` is the model-definition cache (`ModelDefinitionCacheService`);
  an unregistered model makes `getModel` throw `NotFoundException`.
* `recordId` is `params.id` after `parseInt` (`none` for an absent id); the
  guard then re-checks JS truthiness, so `some 0` also yields the
  bad-request branch.
* `fetched` is the result of `dynamicApiService.findOne` for the target id:
  `none` models "no such row" (`findOne` throws `NotFoundException`), `some
  rec` is the row as a JS object.  The owner comparison is JS strict
  inequality `ownerValue !== user.sub`, so a missing or non-numeric owner
  column also denies. -/
def canActivate (registry : List (String × ModelDefinition)) (isPublic : Bool)
    (user : Option UserClaims) (method : String) (modelName : Option String)
    (recordId : Option Int) (fetched : Option (List (String × JsValue))) :
    GuardOutcome :=
  if isPublic then .allow
  else
    match user with
    | none => .forbiddenMissingAuth
    | some u =>
      if u.role = "" ∨ u.sub = 0 then .forbiddenMissingAuth
      else
        match modelName with
        | none => .allow
        | some m =>
          match requiredPermissionOf method with
          | none => .allow
          | some perm =>
            match lookupA registry m with
            | none => .notFoundModel
            | some modelDef =>
              if ¬ hasRolePermission modelDef u.role perm then
                .forbiddenRole u.role perm m
              else
                match modelDef.ownerField with
                | none => .allow
                | some ofield =>
                  if ofield ≠ "" ∧ (perm = "update" ∨ perm = "delete") ∧
                      u.role ≠ "Admin" then
                    match recordId with
                    | none => .badRequestMissingId
                    | some i =>
                      if i = 0 then .badRequestMissingId
                      else
                        match fetched with
                        | none => .notFoundRecord
                        | some rec =>
                          if lookupA rec ofield ≠ some (.vNum u.sub) then
                            .forbiddenNotOwner
                          else .allow
                  else .allow

/-! Concrete fixtures used by the guard witnesses: the `Product` model of the
repository's e2e test, with the default rbac policy. -/

/-- The `Product` model as published by the e2e test (owner field
`creatorId`, default rbac policy). -/
def prodModel : ModelDefinition :=
  { name := "Product"
    tableName := some "product"
    ownerField := some "creatorId"
    fields := [{ name := "name", type := .string },
               { name := "creatorId", type := .number }]
    rbac := some [("Admin", ["all"]),
                  ("Manager", ["create", "read", "update"]),
                  ("Viewer", ["read"])] }

/-- A registry caching just `Product`. -/
def prodRegistry : List (String × ModelDefinition) := [("Product", prodModel)]

/-- A `product` row owned by principal 7. -/
def rowOwned7 : List (String × JsValue) :=
  [("id", .vNum 5), ("name", .vStr "Widget"), ("creatorId", .vNum 7)]

/-- A `product` row owned by principal 3. -/
def rowOwned3 : List (String × JsValue) :=
  [("id", .vNum 5), ("name", .vStr "Widget"), ("creatorId", .vNum 3)]

/-- C1.  Ownership gate: for a model declaring an `ownerField` and an
update/delete request that passes the role-permission check, on an existing
record, a non-`Admin` principal is allowed exactly when the record's owner
column strictly equals the principal's numeric identity `sub` and is denied
with the not-owner `ForbiddenException` otherwise, while an `Admin` principal
is allowed regardless of the owner value. -/
theorem ownership_gate (registry : List (String × ModelDefinition))
    (m : String) (md : ModelDefinition) (u : UserClaims) (method perm : String)
    (ofield : String) (i : Int) (rec : List (String × JsValue))
    (hreg : lookupA registry m = some md)
    (howner : md.ownerField = some ofield) (hof : ofield ≠ "")
    (hperm : requiredPermissionOf method = some perm)
    (hmut : perm = "update" ∨ perm = "delete")
    (hrole : u.role ≠ "") (hsub : u.sub ≠ 0)
    (hgrant : hasRolePermission md u.role perm = true)
    (hid : i ≠ 0) :
    (u.role ≠ "Admin" →
      ((lookupA rec ofield = some (.vNum u.sub) →
          canActivate registry false (some u) method (some m) (some i)
            (some rec) = .allow) ∧
       (lookupA rec ofield ≠ some (.vNum u.sub) →
          canActivate registry false (some u) method (some m) (some i)
            (some rec) = .forbiddenNotOwner))) ∧
    (u.role = "Admin" →
      canActivate registry false (some u) method (some m) (some i)
        (some rec) = .allow) := by
  constructor
  · intro hnadmin
    constructor
    · intro hown
      simp [canActivate, hreg, hperm, howner, hrole, hsub, hgrant, hof, hmut,
        hnadmin, hid, hown]
    · intro hnown
      simp [canActivate, hreg, hperm, howner, hrole, hsub, hgrant, hof, hmut,
        hnadmin, hid, hnown]
  · intro hadmin
    simp [canActivate, hreg, hperm, howner, hrole, hsub, hgrant, hadmin, hid,
      hadmin ▸ hgrant]

/-- Witness for C1: Manager 7 may update the record it owns, is denied on a
record owned by principal 3, and Admin 1 may update that same record. -/
theorem ownership_gate_witness :
    canActivate prodRegistry false (some ⟨"Manager", 7⟩) "PATCH"
        (some "Product") (some 5) (some rowOwned7) = .allow ∧
    canActivate prodRegistry false (some ⟨"Manager", 7⟩) "PATCH"
        (some "Product") (some 5) (some rowOwned3) = .forbiddenNotOwner ∧
    canActivate prodRegistry false (some ⟨"Admin", 1⟩) "PATCH"
        (some "Product") (some 5) (some rowOwned3) = .allow := by
  refine ⟨?_, ?_, ?_⟩
  · exact ((ownership_gate prodRegistry "Product" prodModel ⟨"Manager", 7⟩
      "PATCH" "update" "creatorId" 5 rowOwned7 (by decide) (by decide)
      (by decide) (by decide) (Or.inl rfl) (by decide) (by decide) (by decide)
      (by decide)).1 (by decide)).1 (by decide)
  · exact ((ownership_gate prodRegistry "Product" prodModel ⟨"Manager", 7⟩
      "PATCH" "update" "creatorId" 5 rowOwned3 (by decide) (by decide)
      (by decide) (by decide) (Or.inl rfl) (by decide) (by decide) (by decide)
      (by decide)).1 (by decide)).2 (by decide)
  · exact (ownership_gate prodRegistry "Product" prodModel ⟨"Admin", 1⟩
      "PATCH" "update" "creatorId" 5 rowOwned3 (by decide) (by decide)
      (by decide) (by decide) (Or.inl rfl) (by decide) (by decide) (by decide)
      (by decide)).2 (by decide)

/-- C2.  Role gate: whenever the caller's permission set for its role on the
target model (empty when the role is absent) contains neither the required
permission nor the sentinel `all`, the request is denied with the role
`ForbiddenException` naming role, permission and model — for every record id
and every fetched record, i.e. regardless of ownership. -/
theorem role_gate (registry : List (String × ModelDefinition))
    (m : String) (md : ModelDefinition) (u : UserClaims) (method perm : String)
    (recordId : Option Int) (fetched : Option (List (String × JsValue)))
    (hreg : lookupA registry m = some md)
    (hperm : requiredPermissionOf method = some perm)
    (hrole : u.role ≠ "") (hsub : u.sub ≠ 0)
    (hdeny : hasRolePermission md u.role perm = false) :
    canActivate registry false (some u) method (some m) recordId fetched =
      .forbiddenRole u.role perm m := by
  simp [canActivate, hreg, hperm, hrole, hsub, hdeny]

/-- Witness for C2: Viewer 7 attempting DELETE on `Product` is denied by the
role gate even on a record it owns. -/
theorem role_gate_witness :
    canActivate prodRegistry false (some ⟨"Viewer", 7⟩) "DELETE"
        (some "Product") (some 5) (some rowOwned7) =
      .forbiddenRole "Viewer" "delete" "Product" := by
  exact role_gate prodRegistry "Product" prodModel ⟨"Viewer", 7⟩ "DELETE"
    "delete" (some 5) (some rowOwned7) (by decide) (by decide) (by decide)
    (by decide) (by decide)

/-! ### Dynamic Query Engine (`dynamic-api.service.ts`) -/

/-- Reasons for the `BadRequestException`s of `DynamicApiService`. -/
inductive BadReqReason where
  /-- `Cannot create record with empty data.` -/
  | emptyCreate
  /-- `No valid fields provided for update.` -/
  | noValidFields
  /-- The inner `NotFoundException` of `update` (`Record with ID … not found …
  to update.`) after the `catch` block rewraps its message in a
  `BadRequestException`. -/
  | wrappedNotFound (id : Int)
  deriving DecidableEq, Repr

/-- The client-visible errors of the CRUD operations. -/
inductive ApiError where
  | badRequest (r : BadReqReason)
  | notFound (id : Int)
  deriving DecidableEq, Repr

/-- Is the error a `NotFoundException` (HTTP 404)? -/
def ApiError.isNotFound : ApiError → Bool
  | .notFound _ => true
  | .badRequest _ => false

/-- Is the error a `BadRequestException` (HTTP 400)? -/
def ApiError.isBadRequest : ApiError → Bool
  | .notFound _ => false
  | .badRequest _ => true

/-- The per-field step of `validateAndSanitizeData`: given the payload's value
for the field (`none` when the key is absent), the coerced value to store
(`none` when the field is skipped by a `continue`). -/
def fieldResult (f : FieldDefinition) (mv : Option JsValue) : Option JsValue :=
  match mv with
  | none => none
  | some v =>
    if v = .vNull ∨ v = .vUndef ∨ v = .vStr "" then none
    else
      match f.type with
      | .number | .relation =>
        match jsToNumber v with
        | none => none
        | some n => some (.vNum n)
      | .boolean => some (.vBool (jsTruthy v))
      | _ => some v

/-- The field loop of `validateAndSanitizeData`, accumulating into the
`sanitizedData` object. -/
def sanitizeAux (data : List (String × JsValue)) :
    List FieldDefinition → List (String × JsValue) → List (String × JsValue)
  | [], acc => acc
  | f :: fs, acc =>
    sanitizeAux data fs
      (match fieldResult f (lookupA data f.name) with
       | none => acc
       | some v => setA acc f.name v)

/-- `DynamicApiService.validateAndSanitizeData`: safelist the payload by the
declared fields, dropping empty/null/undefined values, coercing
number/relation fields via `Number` (dropped when `NaN`) and boolean fields
via JS truthiness. -/
def validateAndSanitizeData (data : List (String × JsValue))
    (fields : List FieldDefinition) : List (String × JsValue) :=
  sanitizeAux data fields []

/-- The column/value pairs of the `INSERT` built by `DynamicApiService.create`:
the coerced payload, with the owner field forced to the supplied owner id
when the model declares one. -/
def createColumns (md : ModelDefinition) (data : List (String × JsValue))
    (ownerId : Option Int) : List (String × JsValue) :=
  match md.ownerField, ownerId with
  | some f, some o => setA (validateAndSanitizeData data md.fields) f (.vNum o)
  | _, _ => validateAndSanitizeData data md.fields

/-- `DynamicApiService.create` up to SQL execution: the returned list is the
column/value pairs of the generated `INSERT` (the columns written). -/
def create (md : ModelDefinition) (data : List (String × JsValue))
    (ownerId : Option Int) : Except ApiError (List (String × JsValue)) :=
  if (createColumns md data ownerId).length = 0 then
    .error (.badRequest .emptyCreate)
  else .ok (createColumns md data ownerId)

/-- A table's rows, keyed by the integer primary key `id`. -/
def TableRows := List (Int × List (String × JsValue))

/-- The `SET` clause built by `DynamicApiService.update`: the coerced payload
plus the always-stamped `updatedAt` (where `now` is the `new Date()`
timestamp). -/
def updateSetClause (md : ModelDefinition) (data : List (String × JsValue))
    (now : JsValue) : List (String × JsValue) :=
  setA (validateAndSanitizeData data md.fields) "updatedAt" now

/-- `DynamicApiService.update` up to SQL execution.  When no row has the
given id, the `UPDATE … RETURNING *` comes back empty and the service throws
a `NotFoundException` — but it throws it *inside* the `try` block, so the
`catch` immediately rewraps its message in a `BadRequestException`; the
embedding returns `.badRequest (.wrappedNotFound id)` there. -/
def update (md : ModelDefinition) (rows : TableRows) (now : JsValue)
    (id : Int) (data : List (String × JsValue)) :
    Except ApiError (List (String × JsValue)) :=
  let s1 := updateSetClause md data now
  if s1.length ≤ 1 then .error (.badRequest .noValidFields)
  else
    match (rows.find? (fun r => r.1 = id)).map (fun r => r.2) with
    | none => .error (.badRequest (.wrappedNotFound id))
    | some row => .ok (s1.foldl (fun acc p => setA acc p.1 p.2) row)

/-! ### Association-list lemmas -/

theorem lookupA_nil {α : Type} (k : String) : lookupA ([] : List (String × α)) k = none := rfl

theorem lookupA_cons {α : Type} (p : String × α) (l : List (String × α))
    (k : String) :
    lookupA (p :: l) k = if p.1 = k then some p.2 else lookupA l k := by
  by_cases h : p.1 = k
  · simp [lookupA, List.find?_cons_of_pos, h]
  · simp [lookupA, List.find?_cons_of_neg, h]

theorem lookupA_append_of_none {α : Type} (l₁ l₂ : List (String × α))
    (k : String) (h : lookupA l₁ k = none) :
    lookupA (l₁ ++ l₂) k = lookupA l₂ k := by
  induction l₁ with
  | nil => simp
  | cons p l ih =>
    rw [lookupA_cons] at h
    by_cases hp : p.1 = k
    · simp [hp] at h
    · rw [List.cons_append, lookupA_cons, if_neg hp]
      exact ih (by simpa [hp] using h)

theorem lookupA_setA_self {α : Type} (l : List (String × α)) (k : String)
    (v : α) : lookupA (setA l k v) k = some v := by
  unfold setA
  by_cases h : (lookupA l k).isSome
  · rw [if_pos h]
    induction l with
    | nil => simp [lookupA] at h
    | cons p l ih =>
      by_cases hp : p.1 = k
      · simp [lookupA_cons, hp]
      · rw [lookupA_cons, if_neg hp] at h
        simpa [lookupA_cons, hp] using ih h
  · rw [if_neg h]
    have hnone : lookupA l k = none := by
      cases hl : lookupA l k with
      | none => rfl
      | some v => rw [hl] at h; simp at h
    rw [lookupA_append_of_none l _ k hnone, lookupA_cons]
    simp

theorem lookupA_mapReplace_ne {α : Type} (l : List (String × α))
    (k k' : String) (v : α) (h : k' ≠ k) :
    lookupA (l.map (fun p => if p.1 = k then (k, v) else p)) k' =
      lookupA l k' := by
  induction l with
  | nil => rfl
  | cons p l ih =>
    by_cases hp : p.1 = k
    · rw [List.map_cons, if_pos hp, lookupA_cons, lookupA_cons, hp]
      rw [if_neg (Ne.symm h), if_neg (Ne.symm h)]
      exact ih
    · rw [List.map_cons, if_neg hp, lookupA_cons, lookupA_cons]
      by_cases hq : p.1 = k'
      · simp [hq]
      · rw [if_neg hq, if_neg hq]
        exact ih

theorem lookupA_setA_ne {α : Type} (l : List (String × α)) (k k' : String)
    (v : α) (h : k' ≠ k) : lookupA (setA l k v) k' = lookupA l k' := by
  unfold setA
  by_cases hs : (lookupA l k).isSome
  · rw [if_pos hs]
    exact lookupA_mapReplace_ne l k k' v h
  · rw [if_neg hs]
    cases hl : lookupA l k' with
    | some v' =>
      rw [lookupA] at hl ⊢
      rw [List.find?_append]
      cases hf : List.find? (fun p => decide (p.1 = k')) l with
      | none => rw [hf] at hl; simp at hl
      | some pr => rw [hf] at hl; simpa using hl
    | none =>
      rw [lookupA_append_of_none l _ k' hl, lookupA_cons]
      simp [Ne.symm h, lookupA]

theorem mem_keysA {α : Type} (l : List (String × α)) (k : String) :
    k ∈ keysA l ↔ (lookupA l k).isSome := by
  induction l with
  | nil => simp [keysA, lookupA]
  | cons p l ih =>
    rw [keysA, List.map_cons, List.mem_cons, lookupA_cons]
    by_cases hp : p.1 = k
    · simp [hp]
    · simp only [if_neg hp]
      constructor
      · rintro (h | h)
        · exact absurd h.symm hp
        · exact (ih.mp (by simpa [keysA] using h))
      · intro h
        exact Or.inr (by simpa [keysA] using ih.mpr h)

theorem mem_keysA_setA {α : Type} (l : List (String × α)) (k k' : String)
    (v : α) (h : k' ∈ keysA (setA l k v)) : k' ∈ keysA l ∨ k' = k := by
  by_cases hk : k' = k
  · exact Or.inr hk
  · left
    rw [mem_keysA] at h ⊢
    rwa [lookupA_setA_ne l k k' v hk] at h

/-! ### Sanitization lemmas -/

theorem keysA_sanitizeAux (data : List (String × JsValue))
    (fs : List FieldDefinition) (acc : List (String × JsValue)) (k : String)
    (h : k ∈ keysA (sanitizeAux data fs acc)) :
    k ∈ keysA acc ∨ k ∈ fs.map (fun f => f.name) := by
  induction fs generalizing acc with
  | nil => exact Or.inl h
  | cons f fs ih =>
    rw [sanitizeAux] at h
    rcases ih _ h with h' | h'
    · cases hr : fieldResult f (lookupA data f.name) with
      | none => rw [hr] at h'; exact Or.inl h'
      | some v =>
        rw [hr] at h'
        rcases mem_keysA_setA _ _ _ _ h' with h'' | h''
        · exact Or.inl h''
        · exact Or.inr (by simp [h''])
    · exact Or.inr (by simp [h'])

/-- Keys surviving `validateAndSanitizeData` are declared field names: the
safelist property of the coercion step. -/
theorem keysA_validateAndSanitizeData (data : List (String × JsValue))
    (fields : List FieldDefinition) (k : String)
    (h : k ∈ keysA (validateAndSanitizeData data fields)) :
    k ∈ fields.map (fun f => f.name) := by
  rcases keysA_sanitizeAux data fields [] k h with h' | h'
  · simp [keysA] at h'
  · exact h'

theorem lookupA_sanitizeAux_of_notMem (data : List (String × JsValue))
    (fs : List FieldDefinition) (acc : List (String × JsValue)) (k : String)
    (h : k ∉ fs.map (fun f => f.name)) :
    lookupA (sanitizeAux data fs acc) k = lookupA acc k := by
  induction fs generalizing acc with
  | nil => rfl
  | cons f fs ih =>
    rw [List.map_cons, List.mem_cons] at h
    push_neg at h
    rw [sanitizeAux, ih _ h.2]
    cases hr : fieldResult f (lookupA data f.name) with
    | none => rfl
    | some v => exact lookupA_setA_ne _ _ _ _ h.1

/-- Under distinct field names, the sanitized value of each declared field is
the pure per-field coercion of the payload's value for it. -/
theorem lookupA_validateAndSanitizeData (data : List (String × JsValue))
    (fields : List FieldDefinition) (f : FieldDefinition)
    (hnd : (fields.map (fun g => g.name)).Nodup) (hf : f ∈ fields) :
    lookupA (validateAndSanitizeData data fields) f.name =
      fieldResult f (lookupA data f.name) := by
  unfold validateAndSanitizeData
  have main : ∀ (fs : List FieldDefinition) (acc : List (String × JsValue)),
      (fs.map (fun g => g.name)).Nodup → f ∈ fs →
      lookupA acc f.name = none →
      lookupA (sanitizeAux data fs acc) f.name =
        fieldResult f (lookupA data f.name) := by
    intro fs
    induction fs with
    | nil => intro acc _ hf'; exact absurd hf' (List.not_mem_nil f)
    | cons g fs ih =>
      intro acc hnd' hf' hacc
      rw [List.map_cons, List.nodup_cons] at hnd'
      rcases List.mem_cons.mp hf' with rfl | hmem
      · rw [sanitizeAux, lookupA_sanitizeAux_of_notMem data fs _ _ hnd'.1]
        cases hr : fieldResult f (lookupA data f.name) with
        | none => exact hacc
        | some v => exact lookupA_setA_self _ _ _
      · have hne : g.name ≠ f.name := by
          intro hEq
          exact hnd'.1 (hEq ▸ List.mem_map_of_mem (fun x => x.name) hmem)
        rw [sanitizeAux]
        apply ih _ hnd'.2 hmem
        cases hr : fieldResult g (lookupA data g.name) with
        | none => exact hacc
        | some v => rw [lookupA_setA_ne _ _ _ _ (Ne.symm hne)]; exact hacc
  exact main fields [] hnd hf rfl

/-- C6.  Safelist coercion: a key that is not a declared field name of the
model never appears among the columns written by `create` (under the
invariant that a declared `ownerField` is itself a declared field, which
`publishModel` guarantees) nor among the `SET` columns of `update` other
than the system column `updatedAt`, whose written value is the server
timestamp `now` regardless of the payload. -/
theorem safelist_coercion (md : ModelDefinition)
    (data : List (String × JsValue)) (ownerId : Option Int) (now : JsValue)
    (k : String)
    (hof : ∀ f, md.ownerField = some f → f ∈ fieldNames md)
    (hk : k ∉ fieldNames md) :
    (∀ cols, create md data ownerId = .ok cols → k ∉ keysA cols) ∧
    (k ≠ "updatedAt" → k ∉ keysA (updateSetClause md data now)) ∧
    lookupA (updateSetClause md data now) "updatedAt" = some now := by
  refine ⟨?_, ?_, lookupA_setA_self _ _ _⟩
  · intro cols hok hmem
    unfold create at hok
    split at hok
    · exact Except.noConfusion hok
    · have hcols : cols = createColumns md data ownerId := by
        cases hok; rfl
      rw [hcols] at hmem
      unfold createColumns at hmem
      split at hmem
      · next f o hofv hoid =>
          rcases mem_keysA_setA _ _ _ _ hmem with h' | h'
          · exact hk (keysA_validateAndSanitizeData data md.fields k h')
          · exact hk (h' ▸ hof f hofv)
      · exact hk (keysA_validateAndSanitizeData data md.fields k hmem)
  · intro hne hmem
    unfold updateSetClause at hmem
    rcases mem_keysA_setA _ _ _ _ hmem with h' | h'
    · exact hk (keysA_validateAndSanitizeData data md.fields k h')
    · exact hne h'

/-- Witness for C6: creating a `Product` as principal 7 with a payload that
tries to smuggle keys `isAdmin` and `price` writes only declared columns. -/
theorem safelist_coercion_witness :
    (∀ cols,
        create prodModel
            [("name", .vStr "X"), ("isAdmin", .vBool true),
             ("price", .vNum 9)] (some 7) = .ok cols →
        "isAdmin" ∉ keysA cols) ∧
    "isAdmin" ∉ fieldNames prodModel := by
  refine ⟨fun cols hok => ?_, by decide⟩
  exact (safelist_coercion prodModel
    [("name", .vStr "X"), ("isAdmin", .vBool true), ("price", .vNum 9)]
    (some 7) .vNull "isAdmin"
    (fun f hf => by rw [show f = "creatorId" from by cases hf; rfl]; decide)
    (by decide)).1 cols hok

/-- C9.  Boolean coercion is JS truthiness: for a declared boolean field,
any non-empty string payload value (including `"false"`) is stored as
`true`; the values `""`, `null` and `undefined` (and an absent key) drop the
field; the falsy values `false` and `0` are stored as `false`. -/
theorem boolean_truthiness (fields : List FieldDefinition)
    (data : List (String × JsValue)) (f : FieldDefinition)
    (hnd : (fields.map (fun g => g.name)).Nodup) (hf : f ∈ fields)
    (hb : f.type = .boolean) :
    (∀ s : String, s ≠ "" → lookupA data f.name = some (.vStr s) →
       lookupA (validateAndSanitizeData data fields) f.name =
         some (.vBool true)) ∧
    (lookupA data f.name = some (.vStr "") ∨
       lookupA data f.name = some .vNull ∨
       lookupA data f.name = some .vUndef ∨ lookupA data f.name = none →
       f.name ∉ keysA (validateAndSanitizeData data fields)) ∧
    (lookupA data f.name = some (.vBool false) ∨
       lookupA data f.name = some (.vNum 0) →
       lookupA (validateAndSanitizeData data fields) f.name =
         some (.vBool false)) := by
  have hlk := lookupA_validateAndSanitizeData data fields f hnd hf
  refine ⟨?_, ?_, ?_⟩
  · intro s hs hdata
    rw [hlk, hdata]
    simp [fieldResult, hb, jsTruthy, hs]
  · intro hdata
    rw [mem_keysA]
    rcases hdata with h | h | h | h <;>
      rw [hlk, h] <;> simp [fieldResult, hb]
  · intro hdata
    rcases hdata with h | h <;> rw [hlk, h] <;>
      simp [fieldResult, hb, jsTruthy]

/-- Witness for C9: on a model with a boolean field `active`, the payload
string `"false"` is stored as `true`, the empty string drops the field, and
the boolean `false` is stored as `false`. -/
theorem boolean_truthiness_witness :
    lookupA (validateAndSanitizeData [("active", .vStr "false")]
        [{ name := "active", type := .boolean }]) "active" =
      some (.vBool true) ∧
    "active" ∉ keysA (validateAndSanitizeData [("active", .vStr "")]
        [{ name := "active", type := .boolean }]) ∧
    lookupA (validateAndSanitizeData [("active", .vBool false)]
        [{ name := "active", type := .boolean }]) "active" =
      some (.vBool false) := by
  refine ⟨?_, ?_, ?_⟩
  · exact (boolean_truthiness [{ name := "active", type := .boolean }]
      [("active", .vStr "false")] { name := "active", type := .boolean }
      (by decide) (by simp) rfl).1 "false" (by decide) rfl
  · exact (boolean_truthiness [{ name := "active", type := .boolean }]
      [("active", .vStr "")] { name := "active", type := .boolean }
      (by decide) (by simp) rfl).2.1 (Or.inl rfl)
  · exact (boolean_truthiness [{ name := "active", type := .boolean }]
      [("active", .vBool false)] { name := "active", type := .boolean }
      (by decide) (by simp) rfl).2.2 (Or.inl rfl)

/-- A `product` row as stored in the table (keyed by id 1). -/
def prodRow1 : List (String × JsValue) :=
  [("id", .vNum 1), ("name", .vStr "Old"), ("createdAt", .vNum 50),
   ("updatedAt", .vNum 50), ("creatorId", .vNum 7)]

/-- C4 (code bug exhibit).  `update` on an id with no matching row raises a
`BadRequestException`, not the `NotFoundException` the contract states: the
service throws `NotFoundException` inside its `try` block and the `catch`
rewraps it.  The other legs of the contract hold: an effectively empty
payload is a `BadRequestException`, and a successful update returns the
updated row with `updatedAt` stamped to the server timestamp. -/
theorem update_error_contract :
    update prodModel ([] : TableRows) (.vNum 1000) 1 [("name", .vStr "x")] =
      .error (.badRequest (.wrappedNotFound 1)) ∧
    (ApiError.badRequest (.wrappedNotFound 1)).isNotFound = false ∧
    update prodModel ([] : TableRows) (.vNum 1000) 1 [] =
      .error (.badRequest .noValidFields) ∧
    update prodModel ([(1, prodRow1)] : TableRows) (.vNum 1000) 1
        [("name", .vStr "New")] =
      .ok [("id", .vNum 1), ("name", .vStr "New"), ("createdAt", .vNum 50),
           ("updatedAt", .vNum 1000), ("creatorId", .vNum 7)] := by
  refine ⟨rfl, rfl, rfl, rfl⟩

/-! ### Schema Synthesizer (`model-definitions.service.ts`)

Identifier/default validation, the migration planner, and the publish/delete
workflows.  DDL statements are embedded structurally (`Stmt`) rather than as
SQL text; each migration statement is paired with its human-readable log
entry (`Change`), mirroring the source's parallel `migrationQueries` /
`migrationLog` pushes, which are always pushed together. -/

/-- First character of `/^[a-zA-Z_][a-zA-Z0-9_]*$/`. -/
def isIdentFirst (c : Char) : Bool := c.isAlpha || c = '_'

/-- Later characters of the identifier regex. -/
def isIdentRest (c : Char) : Bool := c.isAlphanum || c = '_'

/-- `isValidIdentifier` from `model-definitions.service.ts`. -/
def isValidIdentifier (name : String) : Bool :=
  match name.data with
  | [] => false
  | c :: cs => isIdentFirst c && cs.all isIdentRest

/-- Does `pat` occur as a contiguous sublist? -/
def listOccurs (pat : List Char) : List Char → Bool
  | [] => pat.isPrefixOf ([] : List Char)
  | c :: rest => pat.isPrefixOf (c :: rest) || listOccurs pat rest

/-- `String.includes`: `sub` occurs somewhere in `s` (for nonempty `sub`). -/
def containsSub (s sub : String) : Bool :=
  if sub.data = [] then false else listOccurs sub.data s.data

/-- The SQL-keyword blocklist of `isValidDefaultValue`. -/
def sqlForbiddenWords : List String :=
  ["DROP", "DELETE", "INSERT", "UPDATE", "ALTER", "CREATE", "TABLE",
   "SCHEMA", "SELECT"]

/-- The maximal runs of word characters (`[A-Za-z0-9_]`) of a string. -/
def wordRunsAux : List Char → List Char → List (List Char)
  | [], acc => if acc = [] then [] else [acc.reverse]
  | c :: rest, acc =>
    if c.isAlphanum || c = '_' then wordRunsAux rest (c :: acc)
    else if acc = [] then wordRunsAux rest []
    else acc.reverse :: wordRunsAux rest []

/-- The word-boundary regex `\b(DROP|…)\b` with the `i` flag: some maximal
run of word characters equals a forbidden keyword, case-insensitively. -/
def hasForbiddenSqlWord (s : String) : Bool :=
  (wordRunsAux s.data []).any
    (fun w => sqlForbiddenWords.contains (String.mk (w.map charToUpper)))

/-- `!isNaN(new Date(valueStr).getTime())`, approximated: the permissive JS
date parser is modelled as accepting any string containing a digit.  No
claim exercises date-default parsing on a concrete input. -/
def jsDateParses (s : String) : Bool := s.data.any Char.isDigit

/-- `isValidDefaultValue` from `model-definitions.service.ts`. -/
def isValidDefaultValue (v : JsValue) (t : FieldType) : Bool :=
  if v = .vNull ∨ v = .vUndef ∨ v = .vStr "" then true
  else
    let valueStr := jsToString v
    if containsSub valueStr ";" || containsSub valueStr "--" then false
    else if hasForbiddenSqlWord valueStr then false
    else if t = .number && (jsStrToNumber valueStr).isNone then false
    else if t = .boolean && strLower valueStr ≠ "true" &&
        strLower valueStr ≠ "false" then false
    else if t = .date && !jsDateParses valueStr then false
    else true

/-- The single-quote character, kept out of source literals. -/
def aposChar : Char := Char.ofNat 39

/-- `String(value).replace(/'/g, "''")` wrapped in single quotes. -/
def sqlQuote (s : String) : String :=
  String.mk (aposChar ::
    (s.data.flatMap (fun c => if c = aposChar then [aposChar, aposChar]
      else [c])) ++ [aposChar])

/-- Reasons of the `BadRequestException`s thrown by the model-definitions
service. -/
inductive PubBadReason where
  | missingNameOrFields
  | invalidModelName (name : String)
  | reservedName (name : String)
  | invalidTableName (name : String)
  | invalidFieldName (name : String)
  | duplicateField (name : String)
  | relationTargetRequired (field : String)
  | invalidTargetModel (field target : String)
  | invalidDefault (field : String)
  | invalidOwnerFieldName (name : String)
  | ownerFieldNotNumber (name : String)
  | emptyFieldList
  | invalidDefaultNumeric
  deriving DecidableEq, Repr

/-- Reasons of the `NotFoundException`s thrown by the model-definitions
service. -/
inductive PubNotFoundReason where
  | relationTargetMissing (target : String)
  | modelFileMissing (name : String)
  deriving DecidableEq, Repr

/-- Reasons of the 500 `HttpException`s (DDL execution failures). -/
inductive InternalReason where
  | createFailed
  | migrateFailed
  | deleteFailed
  deriving DecidableEq, Repr

/-- The errors of the model-definitions service, by HTTP class. -/
inductive SvcError where
  | badRequest (r : PubBadReason)
  | notFound (r : PubNotFoundReason)
  | internal (r : InternalReason)
  deriving DecidableEq, Repr

/-- Is this a `BadRequestException` (HTTP 400)? -/
def SvcError.isBadRequest : SvcError → Bool
  | .badRequest _ => true
  | _ => false

/-- Is this a `NotFoundException` (HTTP 404)? -/
def SvcError.isNotFound : SvcError → Bool
  | .notFound _ => true
  | _ => false

/-- `quoteDefaultValue`: SQL literal for a default value; the source throws
`BadRequestException` for an unparsable numeric value. -/
def quoteDefaultValueE (v : JsValue) (t : FieldType) :
    Except SvcError String :=
  match t with
  | .number | .relation =>
    match jsToNumber v with
    | some n => .ok (toString n)
    | none => .error (.badRequest .invalidDefaultNumeric)
  | .boolean =>
    .ok (if strLower (jsToString v) = "true" then "TRUE" else "FALSE")
  | _ => .ok (sqlQuote (jsToString v))

/-- `getDefaultValueForType`: the backfill value used before `SET NOT NULL`. -/
def getDefaultValueForType : FieldType → JsValue
  | .string => .vStr ""
  | .number => .vNum 0
  | .boolean => .vBool false
  | .date => .vStr "1970-01-01T00:00:00Z"
  | .relation => .vNull

/-- `mapFieldTypeToSqlType`; the source's `null` fallback is unreachable for
the closed `FieldType` enumeration, so the embedding is total. -/
def mapFieldTypeToSqlType : FieldType → String
  | .string => "TEXT"
  | .number => "FLOAT"
  | .boolean => "BOOLEAN"
  | .date => "TIMESTAMP WITH TIME ZONE"
  | .relation => "INTEGER"

/-- The name under which `information_schema.columns.data_type` reports a
column created with each SQL type (PostgreSQL catalog behaviour, part of the
database model). -/
def canonicalDbType : FieldType → String
  | .string => "text"
  | .number => "double precision"
  | .boolean => "boolean"
  | .date => "timestamp with time zone"
  | .relation => "integer"

/-- `mapDbTypeToFieldType`: classify a catalog type name back to a
`FieldType` by substring matching; `none` models the `null` fallback. -/
def mapDbTypeToFieldType (dbType : String) : Option FieldType :=
  let lt := strLower dbType
  if containsSub lt "text" || containsSub lt "char" || containsSub lt "uuid"
  then some .string
  else if containsSub lt "int" || containsSub lt "float" ||
      containsSub lt "double" || containsSub lt "numeric" ||
      containsSub lt "decimal" then some .number
  else if containsSub lt "bool" then some .boolean
  else if containsSub lt "timestamp" || containsSub lt "date" then some .date
  else none

/-- `field.default !== undefined && field.default !== null &&
field.default !== ''`. -/
def defaultPresent (f : FieldDefinition) : Bool :=
  match f.default with
  | none => false
  | some v => v ≠ .vUndef && v ≠ .vNull && v ≠ .vStr ""

/-- The column specification produced by `mapFieldToSql` (the structural
content of the generated column SQL fragment). -/
structure ColSpec where
  name : String
  colType : FieldType
  references : Option String := none
  notNull : Bool := false
  uniq : Bool := false
  defaultSql : Option String := none
  deriving DecidableEq, Repr

/-- The `REFERENCES` clause of `mapFieldToSql`: present (as the lower-cased
target table) exactly for valid relation fields. -/
def relationRefs (f : FieldDefinition) : Except SvcError (Option String) :=
  if f.type = .relation then
    match f.targetModel with
    | none => .error (.badRequest (.relationTargetRequired f.name))
    | some t =>
      if ¬ isValidIdentifier t then
        .error (.badRequest (.invalidTargetModel f.name t))
      else .ok (some (strLower t))
  else .ok none

/-- The `DEFAULT` clause of `mapFieldToSql`: validated against the
injection blocklist and the declared type, then quoted. -/
def fieldDefaultSql (f : FieldDefinition) : Except SvcError (Option String) :=
  if defaultPresent f then
    match f.default with
    | some v =>
      if ¬ isValidDefaultValue v f.type then
        .error (.badRequest (.invalidDefault f.name))
      else (quoteDefaultValueE v f.type).map some
    | none => .ok none
  else .ok none

/-- `mapFieldToSql`: validates the field name, relation target and default
value, and produces the column specification. -/
def mapFieldToSql (f : FieldDefinition) : Except SvcError ColSpec :=
  if ¬ isValidIdentifier f.name then
    .error (.badRequest (.invalidFieldName f.name))
  else
    match relationRefs f with
    | .error e => .error e
    | .ok refs =>
      match fieldDefaultSql f with
      | .error e => .error e
      | .ok dflt =>
        .ok { name := f.name, colType := f.type, references := refs,
              notNull := f.required, uniq := f.unique, defaultSql := dflt }

/-- `RESERVED_NAMES`. -/
def reservedNames : List String := ["user", "migration", "enum"]

/-- The relation checks of the validation loop; the unregistered-target
case throws `NotFoundException` (via `cacheService.getModel`). -/
def checkRelation (reg : List String) (f : FieldDefinition) :
    Except SvcError Unit :=
  if f.type = .relation then
    match f.targetModel with
    | none => .error (.badRequest (.relationTargetRequired f.name))
    | some t =>
      if ¬ isValidIdentifier t then
        .error (.badRequest (.invalidTargetModel f.name t))
      else if ¬ reg.contains t then
        .error (.notFound (.relationTargetMissing t))
      else .ok ()
  else .ok ()

/-- The default-value check of the validation loop (`field.default !==
undefined && !isValidDefaultValue(...)`). -/
def checkDefault (f : FieldDefinition) : Except SvcError Unit :=
  match f.default with
  | none => .ok ()
  | some v =>
    if ¬ isValidDefaultValue v f.type then
      .error (.badRequest (.invalidDefault f.name))
    else .ok ()

/-- The field loop of `validateModelDefinition`: per field, identifier
check, case-insensitive duplicate check (`seen` is the set of lower-cased
names), relation checks, default check. -/
def validateFields (reg : List String) :
    List FieldDefinition → List String → Except SvcError Unit
  | [], _ => .ok ()
  | f :: fs, seen =>
    if ¬ isValidIdentifier f.name then
      .error (.badRequest (.invalidFieldName f.name))
    else if seen.contains (strLower f.name) then
      .error (.badRequest (.duplicateField f.name))
    else
      match checkRelation reg f with
      | .error e => .error e
      | .ok _ =>
        match checkDefault f with
        | .error e => .error e
        | .ok _ => validateFields reg fs (seen ++ [strLower f.name])

/-- The `ownerField` checks at the end of `validateModelDefinition`. -/
def validateOwnerField (md : ModelDefinition) : Except SvcError Unit :=
  match md.ownerField with
  | none => .ok ()
  | some o =>
    if o ≠ "" then
      if ¬ isValidIdentifier o then
        .error (.badRequest (.invalidOwnerFieldName o))
      else
        match md.fields.find? (fun f => f.name = o) with
        | some fd =>
          if fd.type ≠ .number then
            .error (.badRequest (.ownerFieldNotNumber o))
          else .ok ()
        | none => .ok ()
    else .ok ()

/-- `validateModelDefinition`.  `reg` is the set of registered model names
(the cache keys), consulted for relation targets.  The table-name check is
guarded by JS truthiness, so an empty-string `tableName` is *not*
validated. -/
def validateModelDefinition (reg : List String) (md : ModelDefinition) :
    Except SvcError Unit :=
  if md.name = "" then .error (.badRequest .missingNameOrFields)
  else if ¬ isValidIdentifier md.name then
    .error (.badRequest (.invalidModelName md.name))
  else if reservedNames.contains (strLower md.name) then
    .error (.badRequest (.reservedName md.name))
  else
    let rest :=
      match validateFields reg md.fields [] with
      | .error e => .error e
      | .ok _ => validateOwnerField md
    match md.tableName with
    | some t =>
      if t ≠ "" ∧ ¬ isValidIdentifier t then
        .error (.badRequest (.invalidTableName t))
      else rest
    | none => rest

/-- The default rbac policy installed by `publishModel` when none is given. -/
def defaultRbac : List (String × List String) :=
  [("Admin", ["all"]), ("Manager", ["create", "read", "update"]),
   ("Viewer", ["read"])]

/-- The in-place normalization `publishModel` applies before converging the
schema: default the table name to the lower-cased model name, install the
default rbac policy, and append the owner field to `fields` when it is
declared but not present. -/
def normalizeDefinition (md : ModelDefinition) : ModelDefinition :=
  let tbl :=
    match md.tableName with
    | some t => if t = "" then strLower md.name else t
    | none => strLower md.name
  let rbac :=
    match md.rbac with
    | some r => some r
    | none => some defaultRbac
  let fields :=
    match md.ownerField with
    | some o =>
      if o ≠ "" ∧ (md.fields.find? (fun f => f.name = o)).isNone then
        md.fields ++ [({ name := o, type := .number, required := false } : FieldDefinition)]
      else md.fields
    | none => md.fields
  { md with tableName := some tbl, rbac := rbac, fields := fields }

/-- Structural DDL statements (the `$executeRawUnsafe` strings). -/
inductive Stmt where
  | createTable (table : String) (specs : List ColSpec)
  | createTriggerFn
  | dropTrigger (table : String)
  | createTrigger (table : String)
  | addColumn (table : String) (spec : ColSpec)
  | dropColumn (table : String) (col : String)
  | alterType (table : String) (col : String) (toType : FieldType)
  | backfillNulls (table : String) (col : String) (value : String)
  | setNotNull (table : String) (col : String)
  | dropNotNull (table : String) (col : String)
  | setDefault (table : String) (col : String) (value : String)
  | dropDefault (table : String) (col : String)
  | dropTable (table : String)
  deriving DecidableEq, Repr

/-- The human-readable `migrationLog` entries. -/
inductive Change where
  | addColumn (name : String) (t : FieldType)
  | dropColumn (name : String)
  | retype (name : String) (oldType newType : FieldType)
  | backfillDefault (name : String)
  | makeRequired (name : String)
  | makeOptional (name : String)
  | setDefault (name : String) (value : String)
  | removeDefault (name : String)
  deriving DecidableEq, Repr

/-- `protectedColumns`: the system columns plus the model's owner field
(when truthy). -/
def protectedColumns (md : ModelDefinition) : List String :=
  ["id", "createdAt", "updatedAt"] ++
    (match md.ownerField with
     | some o => if o = "" then [] else [o]
     | none => [])

/-- The nullability sub-plan of the per-field migration loop: backfill
`NULL`s then `SET NOT NULL` when the field became required, `DROP NOT NULL`
when it became optional. -/
def fieldNullabilityPlan (tableName : String) (col : DbColumnInfo)
    (f : FieldDefinition) : Except SvcError (List (Stmt × Change)) :=
  if f.required ∧ col.is_nullable = "YES" then
    match quoteDefaultValueE (getDefaultValueForType f.type) f.type with
    | .error e => .error e
    | .ok q =>
      .ok [(Stmt.backfillNulls tableName f.name q,
            Change.backfillDefault f.name),
           (Stmt.setNotNull tableName f.name, Change.makeRequired f.name)]
  else if ¬ f.required ∧ ¬ (col.is_nullable = "YES") then
    .ok [(Stmt.dropNotNull tableName f.name, Change.makeOptional f.name)]
  else .ok []

/-- `newDefaultSql` of the per-field loop: the quoted declared default, or
`none` when absent/empty (the source's ternary). -/
def newDefaultSqlOf (f : FieldDefinition) : Except SvcError (Option String) :=
  if defaultPresent f then
    match f.default with
    | some v => (quoteDefaultValueE v f.type).map some
    | none => .ok none
  else .ok none

/-- The retype sub-plan of the per-field migration loop: a type change when
the catalog type classifies to a different `FieldType` (the source also
requires `newSqlType` non-null, which is always true for the closed enum). -/
def retypePlanOf (tableName : String) (col : DbColumnInfo)
    (f : FieldDefinition) : List (Stmt × Change) :=
  match mapDbTypeToFieldType col.data_type with
  | some cur =>
    if cur ≠ f.type then
      [(Stmt.alterType tableName f.name f.type,
        Change.retype f.name cur f.type)]
    else []
  | none => []

/-- The default sub-plan of the per-field migration loop: the quoted
declared default is compared literally against the catalog's stored default
expression. -/
def defaultPlanOf (tableName : String) (col : DbColumnInfo)
    (f : FieldDefinition) (newDefaultSql : Option String) :
    List (Stmt × Change) :=
  if newDefaultSql ≠ col.column_default then
    match newDefaultSql with
    | some d =>
      [(Stmt.setDefault tableName f.name d, Change.setDefault f.name d)]
    | none =>
      match col.column_default with
      | some _ =>
        [(Stmt.dropDefault tableName f.name, Change.removeDefault f.name)]
      | none => []
  else []

/-- The retype / nullability / default sub-plans of `migrateTable` for one
declared field.  Mirrors the source's third loop body: skipped when the
column is absent or protected; otherwise retype, then nullability, then
default convergence. -/
def fieldMigration (tableName : String) (currentSchema : List DbColumnInfo)
    (prot : List String) (f : FieldDefinition) :
    Except SvcError (List (Stmt × Change)) :=
  match currentSchema.find? (fun c => c.column_name = f.name) with
  | none => .ok []
  | some col =>
    if prot.contains f.name then .ok []
    else
      match fieldNullabilityPlan tableName col f with
      | .error e => .error e
      | .ok nullPart =>
        match newDefaultSqlOf f with
        | .error e => .error e
        | .ok newDefaultSql =>
          .ok (retypePlanOf tableName col f ++ nullPart ++
            defaultPlanOf tableName col f newDefaultSql)

/-- The `columnsToAdd` loop of `migrateTable`: one `ADD COLUMN` per field
absent from the schema, via `mapFieldToSql` (which can throw). -/
def addPlans (tableName : String) :
    List FieldDefinition → Except SvcError (List (Stmt × Change))
  | [] => .ok []
  | f :: fs =>
    match mapFieldToSql f with
    | .error e => .error e
    | .ok spec =>
      match addPlans tableName fs with
      | .error e => .error e
      | .ok rest =>
        .ok ((Stmt.addColumn tableName spec,
              Change.addColumn f.name f.type) :: rest)

/-- The per-field loop of `migrateTable`, concatenating the sub-plans. -/
def fieldMigrations (tableName : String) (currentSchema : List DbColumnInfo)
    (prot : List String) :
    List FieldDefinition → Except SvcError (List (Stmt × Change))
  | [] => .ok []
  | f :: fs =>
    match fieldMigration tableName currentSchema prot f with
    | .error e => .error e
    | .ok part =>
      match fieldMigrations tableName currentSchema prot fs with
      | .error e => .error e
      | .ok rest => .ok (part ++ rest)

/-- `columnsToAdd`: the declared fields absent from the live schema. -/
def columnsToAddOf (md : ModelDefinition) (schema : List DbColumnInfo) :
    List FieldDefinition :=
  md.fields.filter
    (fun f => ¬ (schema.map (fun c => c.column_name)).contains f.name)

/-- `columnsToDrop`: live columns neither declared nor protected. -/
def columnsToDropOf (md : ModelDefinition) (schema : List DbColumnInfo) :
    List String :=
  (schema.map (fun c => c.column_name)).filter
    (fun c => ¬ (md.fields.map (fun f => f.name)).contains c ∧
      ¬ (protectedColumns md).contains c)

/-- `migrateTable` up to execution: the planned statement/log pairs, in the
source's order — adds, then drops (excluding protected columns), then the
per-field retype/nullability/default convergence. -/
def migrateTable (md : ModelDefinition) (currentSchema : List DbColumnInfo) :
    Except SvcError (List (Stmt × Change)) :=
  let tableName := md.tableName.getD ""
  match addPlans tableName (columnsToAddOf md currentSchema) with
  | .error e => .error e
  | .ok adds =>
    let drops := (columnsToDropOf md currentSchema).map
      (fun c => (Stmt.dropColumn tableName c, Change.dropColumn c))
    match fieldMigrations tableName currentSchema (protectedColumns md)
        md.fields with
    | .error e => .error e
    | .ok perField => .ok (adds ++ drops ++ perField)

/-- The `mapFieldToSql` loop of `createTable`. -/
def mapFieldsToSpecs : List FieldDefinition → Except SvcError (List ColSpec)
  | [] => .ok []
  | f :: fs =>
    match mapFieldToSql f with
    | .error e => .error e
    | .ok spec =>
      match mapFieldsToSpecs fs with
      | .error e => .error e
      | .ok specs => .ok (spec :: specs)

/-- `createTable` up to execution: the four statements of its transaction
(table, trigger function, drop trigger, trigger), plus the column
specifications for the schema model. -/
def createTable (md : ModelDefinition) :
    Except SvcError (List Stmt × List ColSpec) :=
  if md.fields.length = 0 then .error (.badRequest .emptyFieldList)
  else
    match mapFieldsToSpecs md.fields with
    | .error e => .error e
    | .ok specs =>
      let tbl := md.tableName.getD ""
      .ok ([Stmt.createTable tbl specs, Stmt.createTriggerFn,
            Stmt.dropTrigger tbl, Stmt.createTrigger tbl], specs)

/-- How PostgreSQL reports a stored default expression for a column of the
given catalog type: a string literal on a `text` column gains a `::text`
cast, a boolean keyword is lowercased, a date literal gains its
`::timestamp with time zone` cast; numeric literals are reported as
written.  The reported form differs from the service's quoted form exactly
for string/boolean/date defaults — the source of the migrate loop's
eternal `SET DEFAULT` replanning. -/
def canonicalColumnDefault (q : String) (dataType : String) : String :=
  if dataType = "text" then q ++ "::text"
  else if dataType = "boolean" then strLower q
  else if dataType = "timestamp with time zone" then
    q ++ "::timestamp with time zone"
  else q

/-- The catalog row of a created column: canonical type name, `YES`/`NO`
nullability, and the default expression as PostgreSQL reports it
(canonicalized, not the service's quoted text). -/
def specColumn (spec : ColSpec) : DbColumnInfo :=
  { column_name := spec.name
    data_type := canonicalDbType spec.colType
    is_nullable := if spec.notNull then "NO" else "YES"
    column_default := spec.defaultSql.map
      (fun q => canonicalColumnDefault q (canonicalDbType spec.colType)) }

/-- The catalog rows of the three system columns of a created table. -/
def systemColumns : List DbColumnInfo :=
  [{ column_name := "id", data_type := "integer", is_nullable := "NO",
     column_default := some "nextval" },
   { column_name := "createdAt", data_type := "timestamp with time zone",
     is_nullable := "YES", column_default := some "CURRENT_TIMESTAMP" },
   { column_name := "updatedAt", data_type := "timestamp with time zone",
     is_nullable := "YES", column_default := some "CURRENT_TIMESTAMP" }]

/-- The catalog after `CREATE TABLE`: system columns then one column per
field, in order. -/
def schemaAfterCreate (specs : List ColSpec) : List DbColumnInfo :=
  systemColumns ++ specs.map specColumn

/-- The effect of one migration statement on the catalog (PostgreSQL
semantics of the simple `ALTER TABLE` forms the planner emits; `UPDATE`
backfills do not change the catalog; a stored `SET DEFAULT` expression is
reported back canonicalized, not as sent).  Statements not emitted by
`migrateTable` leave the schema unchanged. -/
def applyStmt (schema : List DbColumnInfo) : Stmt → List DbColumnInfo
  | .addColumn _ spec => schema ++ [specColumn spec]
  | .dropColumn _ c => schema.filter (fun col => col.column_name ≠ c)
  | .alterType _ c t =>
    schema.map (fun col =>
      if col.column_name = c then { col with data_type := canonicalDbType t }
      else col)
  | .setNotNull _ c =>
    schema.map (fun col =>
      if col.column_name = c then { col with is_nullable := "NO" } else col)
  | .dropNotNull _ c =>
    schema.map (fun col =>
      if col.column_name = c then { col with is_nullable := "YES" } else col)
  | .setDefault _ c d =>
    schema.map (fun col =>
      if col.column_name = c then
        { col with column_default := some (canonicalColumnDefault d col.data_type) }
      else col)
  | .dropDefault _ c =>
    schema.map (fun col =>
      if col.column_name = c then { col with column_default := none }
      else col)
  | _ => schema

/-- The effect of a whole migration plan, applied in order. -/
def applyPlan (plan : List (Stmt × Change)) (schema : List DbColumnInfo) :
    List DbColumnInfo :=
  plan.foldl (fun sch p => applyStmt sch p.1) schema

/-- The system state the service acts on: live tables (name ↦ catalog
rows), the durable definition store (the `models/` directory), the
in-memory registry (`ModelDefinitionCacheService`), and the log of executed
DDL statements. -/
structure SysState where
  tables : List (String × List DbColumnInfo)
  store : List (String × ModelDefinition)
  registry : List (String × ModelDefinition)
  ddlLog : List Stmt
  deriving DecidableEq, Repr

/-- The registered model names (cache keys), as consulted by validation. -/
def registryNames (s : SysState) : List String := keysA s.registry

/-- The result message of a publish. -/
inductive PubMessage where
  | created (model : String)
  | upToDate (model : String)
  | migrated (model : String) (count : Nat)
  deriving DecidableEq, Repr

/-- The response of `publishModel`: message, change list (absent for the
create path), and the normalized definition. -/
structure PubResult where
  message : PubMessage
  changes : Option (List Change)
  model : ModelDefinition
  deriving DecidableEq, Repr

/-- `publishModel`: validate, normalize, inspect the live schema, create or
migrate, then persist the document and refresh the registry — in that
order, so a failed convergence leaves the store and registry untouched.
`execFails` models the database rejecting the transaction (each convergence
executes as one transaction: applied entirely or not at all).  A no-change
migration plan skips the transaction altogether. -/
def publishModel (md : ModelDefinition) (execFails : Bool) (s : SysState) :
    Except SvcError PubResult × SysState :=
  match validateModelDefinition (registryNames s) md with
  | .error e => (.error e, s)
  | .ok _ =>
    let n := normalizeDefinition md
    let tbl := n.tableName.getD ""
    let cur := (lookupA s.tables tbl).getD []
    if cur.length = 0 then
      match createTable n with
      | .error e => (.error e, s)
      | .ok (stmts, specs) =>
        if execFails then (.error (.internal .createFailed), s)
        else
          (.ok { message := .created n.name, changes := none, model := n },
           { s with tables := setA s.tables tbl (schemaAfterCreate specs),
                    ddlLog := s.ddlLog ++ stmts,
                    store := setA s.store n.name n,
                    registry := setA s.registry n.name n })
    else
      match migrateTable n cur with
      | .error e => (.error e, s)
      | .ok plan =>
        if plan.length = 0 then
          (.ok { message := .upToDate n.name, changes := some [],
                 model := n },
           { s with store := setA s.store n.name n,
                    registry := setA s.registry n.name n })
        else if execFails then (.error (.internal .migrateFailed), s)
        else
          (.ok { message := .migrated n.name plan.length,
                 changes := some (plan.map (fun p => p.2)), model := n },
           { s with tables := setA s.tables tbl (applyPlan plan cur),
                    ddlLog := s.ddlLog ++ plan.map (fun p => p.1),
                    store := setA s.store n.name n,
                    registry := setA s.registry n.name n })

/-- `deleteModel`: validate the name, require the definition document, then
`DROP TABLE IF EXISTS` the *lower-cased model name* (not the stored
definition's `tableName`), delete the document and evict the registry
entry. -/
def deleteModel (modelName : String) (execFails : Bool) (s : SysState) :
    Except SvcError Unit × SysState :=
  if ¬ isValidIdentifier modelName then
    (.error (.badRequest (.invalidModelName modelName)), s)
  else
    let tableName := strLower modelName
    if (lookupA s.store modelName).isNone then
      (.error (.notFound (.modelFileMissing modelName)), s)
    else if execFails then (.error (.internal .deleteFailed), s)
    else
      (.ok (),
       { s with tables := eraseA s.tables tableName,
                ddlLog := s.ddlLog ++ [Stmt.dropTable tableName],
                store := eraseA s.store modelName,
                registry := eraseA s.registry modelName })

/-! ### Lemmas about erasure and the publish state machine -/

theorem eraseA_cons {α : Type} (p : String × α) (l : List (String × α))
    (k : String) :
    eraseA (p :: l) k = if p.1 = k then eraseA l k else p :: eraseA l k := by
  unfold eraseA
  by_cases hp : p.1 = k <;> simp [List.filter_cons, hp]

theorem lookupA_eraseA_self {α : Type} (l : List (String × α)) (k : String) :
    lookupA (eraseA l k) k = none := by
  induction l with
  | nil => rfl
  | cons p l ih =>
    rw [eraseA_cons]
    by_cases hp : p.1 = k
    · rw [if_pos hp]; exact ih
    · rw [if_neg hp, lookupA_cons, if_neg hp]; exact ih

theorem lookupA_eraseA_ne {α : Type} (l : List (String × α)) (k k' : String)
    (h : k' ≠ k) : lookupA (eraseA l k) k' = lookupA l k' := by
  induction l with
  | nil => rfl
  | cons p l ih =>
    rw [eraseA_cons]
    by_cases hp : p.1 = k
    · rw [lookupA_cons, if_pos hp]
      have hp' : ¬ p.1 = k' := fun hc => h (hp.symm.trans hc).symm
      rw [if_neg hp']
      exact ih
    · rw [if_neg hp, lookupA_cons, lookupA_cons]
      by_cases hq : p.1 = k'
      · rw [if_pos hq, if_pos hq]
      · rw [if_neg hq, if_neg hq]; exact ih

/-- A failed publish leaves the whole system state unchanged: validation
errors return before convergence, convergence plans that fail to build
return before execution, failed transactions roll back, and the document
write plus registry refresh happen only after a successful convergence. -/
theorem publishModel_error_state (md : ModelDefinition) (execFails : Bool)
    (s : SysState) (e : SvcError)
    (h : (publishModel md execFails s).1 = .error e) :
    (publishModel md execFails s).2 = s := by
  unfold publishModel at h ⊢
  cases hv : validateModelDefinition (registryNames s) md with
  | error e' => simp [hv]
  | ok u =>
    simp only [hv] at h ⊢
    by_cases hlen :
        ((lookupA s.tables
            ((normalizeDefinition md).tableName.getD "")).getD []).length = 0
    · simp only [hlen, if_pos] at h ⊢
      cases hct : createTable (normalizeDefinition md) with
      | error e' => simp [hct]
      | ok pair =>
        simp only [hct] at h ⊢
        cases execFails with
        | true => simp
        | false => simp at h
    · simp only [hlen, if_neg] at h ⊢
      cases hmt : migrateTable (normalizeDefinition md)
          ((lookupA s.tables
            ((normalizeDefinition md).tableName.getD "")).getD []) with
      | error e' => simp [hmt]
      | ok plan =>
        simp only [hmt] at h ⊢
        by_cases hpl : plan.length = 0
        · simp [hpl] at h
        · simp only [hpl, if_neg] at h ⊢
          cases execFails with
          | true => simp
          | false => simp at h

/-- The empty system state (fresh database, no definitions). -/
def emptyState : SysState :=
  { tables := [], store := [], registry := [], ddlLog := [] }

/-- C5.  Publish failure atomicity: whenever `publishModel` fails — at
validation, while building the convergence plan, or because the database
rejects the create/migrate transaction (`execFails`) — the durable store,
the registry, and the live tables are all left exactly as they were. -/
theorem publish_failure_atomic (md : ModelDefinition) (execFails : Bool)
    (s : SysState) (e : SvcError)
    (h : (publishModel md execFails s).1 = .error e) :
    (publishModel md execFails s).2.store = s.store ∧
    (publishModel md execFails s).2.registry = s.registry ∧
    (publishModel md execFails s).2.tables = s.tables := by
  rw [publishModel_error_state md execFails s e h]
  exact ⟨rfl, rfl, rfl⟩

/-- The `Product` definition as the e2e test publishes it. -/
def mdProductInput : ModelDefinition :=
  { name := "Product", ownerField := some "creatorId",
    fields := [{ name := "name", type := .string }],
    rbac := some defaultRbac }

/-- Witness for C5: publishing `Product` into the empty state with the
database rejecting the create transaction changes nothing. -/
theorem publish_failure_atomic_witness :
    (publishModel mdProductInput true emptyState).1 =
      .error (.internal .createFailed) ∧
    (publishModel mdProductInput true emptyState).2.store = [] ∧
    (publishModel mdProductInput true emptyState).2.registry = [] ∧
    (publishModel mdProductInput true emptyState).2.tables = [] := by
  have h := publish_failure_atomic mdProductInput true emptyState
    (.internal .createFailed) (by decide)
  exact ⟨by decide, h.1, h.2.1, h.2.2⟩

/-- A model published under a `tableName` that differs from the lower-cased
model name. -/
def mdCustomTbl : ModelDefinition :=
  { name := "Product", tableName := some "ProductTbl",
    fields := [{ name := "name", type := .string }] }

/-- The state after publishing `mdCustomTbl` into the empty state. -/
def statePublished : SysState := (publishModel mdCustomTbl false emptyState).2

/-- C10.  `deleteModel` drops the table named by the lower-cased model name,
ignoring the `tableName` recorded in the stored definition: for a model
whose stored `tableName` differs from that, delete succeeds, removes the
definition document and the registry entry, but the model's actual table is
still live afterwards. -/
theorem deleteModel_ignores_tableName (s : SysState) (modelName : String)
    (defn : ModelDefinition) (t : String) (sch : List DbColumnInfo)
    (hvalid : isValidIdentifier modelName = true)
    (hstore : lookupA s.store modelName = some defn)
    (htbl : defn.tableName = some t)
    (hne : t ≠ strLower modelName)
    (hsch : lookupA s.tables t = some sch) :
    (deleteModel modelName false s).1 = .ok () ∧
    (deleteModel modelName false s).2.tables =
      eraseA s.tables (strLower modelName) ∧
    lookupA (deleteModel modelName false s).2.tables t = some sch ∧
    lookupA (deleteModel modelName false s).2.store modelName = none ∧
    lookupA (deleteModel modelName false s).2.registry modelName = none := by
  have hsome : (lookupA s.store modelName).isNone = false := by
    rw [hstore]; rfl
  simp only [deleteModel, hvalid, hsome, Bool.true_eq_false, not_true,
    Bool.false_eq_true, if_false]
  refine ⟨trivial, trivial, ?_, ?_, ?_⟩
  · rw [lookupA_eraseA_ne s.tables (strLower modelName) t hne]
    exact hsch
  · exact lookupA_eraseA_self s.store modelName
  · exact lookupA_eraseA_self s.registry modelName

/-- Witness for C10: after publishing `Product` with table `ProductTbl`,
deleting `Product` leaves the `ProductTbl` table live while removing the
document and registry entry (the dropped name was `product`). -/
theorem deleteModel_ignores_tableName_witness :
    (deleteModel "Product" false statePublished).1 = .ok () ∧
    lookupA (deleteModel "Product" false statePublished).2.tables
        "ProductTbl" =
      some (schemaAfterCreate [{ name := "name", colType := .string }]) ∧
    lookupA (deleteModel "Product" false statePublished).2.store "Product" =
      none ∧
    lookupA (deleteModel "Product" false statePublished).2.registry
        "Product" = none := by
  have h := deleteModel_ignores_tableName statePublished "Product"
    (normalizeDefinition mdCustomTbl) "ProductTbl"
    (schemaAfterCreate [{ name := "name", colType := .string }])
    (by decide) (by decide) (by decide) (by decide) (by decide)
  exact ⟨h.1, h.2.2.1, h.2.2.2.1, h.2.2.2.2⟩

/-! ### The drop-column frame of `migrateTable` -/

/-- The column names a plan drops. -/
def dropTargets (plan : List (Stmt × Change)) : List String :=
  plan.filterMap (fun p =>
    match p.1 with
    | .dropColumn _ c => some c
    | _ => none)

theorem dropTargets_append (l₁ l₂ : List (Stmt × Change)) :
    dropTargets (l₁ ++ l₂) = dropTargets l₁ ++ dropTargets l₂ :=
  List.filterMap_append l₁ l₂ _

theorem dropTargets_addPlans (t : String) (fs : List FieldDefinition)
    (adds : List (Stmt × Change)) (h : addPlans t fs = .ok adds) :
    dropTargets adds = [] := by
  induction fs generalizing adds with
  | nil => cases h; rfl
  | cons f fs ih =>
    unfold addPlans at h
    cases hs : mapFieldToSql f with
    | error e => rw [hs] at h; exact Except.noConfusion h
    | ok spec =>
      rw [hs] at h
      cases hr : addPlans t fs with
      | error e => rw [hr] at h; exact Except.noConfusion h
      | ok rest =>
        rw [hr] at h
        cases h
        simpa [dropTargets] using ih rest hr

theorem dropTargets_fieldNullabilityPlan (t : String) (col : DbColumnInfo)
    (f : FieldDefinition) (part : List (Stmt × Change))
    (h : fieldNullabilityPlan t col f = .ok part) : dropTargets part = [] := by
  unfold fieldNullabilityPlan at h
  split at h
  · cases hq : quoteDefaultValueE (getDefaultValueForType f.type) f.type with
    | error e => rw [hq] at h; exact Except.noConfusion h
    | ok q => rw [hq] at h; cases h; rfl
  · split at h
    · cases h; rfl
    · cases h; rfl

theorem dropTargets_retypePlan (t : String) (col : DbColumnInfo)
    (f : FieldDefinition) : dropTargets (retypePlanOf t col f) = [] := by
  unfold retypePlanOf
  cases hm : mapDbTypeToFieldType col.data_type with
  | none => rfl
  | some cur =>
    by_cases hc : cur ≠ f.type <;> simp [hc, dropTargets]

theorem dropTargets_defaultPlan (t : String) (col : DbColumnInfo)
    (f : FieldDefinition) (nds : Option String) :
    dropTargets (defaultPlanOf t col f nds) = [] := by
  unfold defaultPlanOf
  by_cases hne : nds ≠ col.column_default
  · rw [if_pos hne]
    cases nds with
    | some d => rfl
    | none =>
      cases col.column_default with
      | some d => rfl
      | none => rfl
  · rw [if_neg hne]; rfl

theorem dropTargets_fieldMigration (t : String)
    (sch : List DbColumnInfo) (prot : List String) (f : FieldDefinition)
    (part : List (Stmt × Change))
    (h : fieldMigration t sch prot f = .ok part) : dropTargets part = [] := by
  unfold fieldMigration at h
  split at h
  · cases h; rfl
  · rename_i col heqfind
    split at h
    · cases h; rfl
    · split at h
      · exact Except.noConfusion h
      · rename_i nullPart hnp
        split at h
        · exact Except.noConfusion h
        · rename_i newDefault hnd
          cases h
          rw [dropTargets_append, dropTargets_append,
            dropTargets_retypePlan, dropTargets_defaultPlan,
            dropTargets_fieldNullabilityPlan t col f nullPart hnp]
          rfl

theorem dropTargets_fieldMigrations (t : String)
    (sch : List DbColumnInfo) (prot : List String)
    (fs : List FieldDefinition) (out : List (Stmt × Change))
    (h : fieldMigrations t sch prot fs = .ok out) : dropTargets out = [] := by
  induction fs generalizing out with
  | nil => cases h; rfl
  | cons f fs ih =>
    unfold fieldMigrations at h
    cases hf : fieldMigration t sch prot f with
    | error e => rw [hf] at h; exact Except.noConfusion h
    | ok part =>
      rw [hf] at h
      cases hr : fieldMigrations t sch prot fs with
      | error e => rw [hr] at h; exact Except.noConfusion h
      | ok rest =>
        rw [hr] at h
        cases h
        rw [dropTargets_append, dropTargets_fieldMigration t sch prot f part hf,
          ih rest hr]
        rfl

theorem dropTargets_dropPlan (t : String) (cols : List String) :
    dropTargets (cols.map
      (fun c => (Stmt.dropColumn t c, Change.dropColumn c))) = cols := by
  induction cols with
  | nil => rfl
  | cons c cols ih =>
    rw [List.map_cons, dropTargets, List.filterMap_cons]
    simpa [dropTargets] using ih

/-- C8.  Protected-column frame: the drop-column set computed by
`migrateTable` never contains `id`, `createdAt`, `updatedAt`, or the
model's declared (non-empty) `ownerField`, whatever the current schema —
in particular the owner column is never dropped even when absent from the
new field list. -/
theorem protected_columns_never_dropped (md : ModelDefinition)
    (schema : List DbColumnInfo) (plan : List (Stmt × Change)) (c : String)
    (hok : migrateTable md schema = .ok plan)
    (hc : c ∈ dropTargets plan) :
    c ≠ "id" ∧ c ≠ "createdAt" ∧ c ≠ "updatedAt" ∧
      (∀ o, md.ownerField = some o → o ≠ "" → c ≠ o) := by
  simp only [migrateTable] at hok
  split at hok
  · exact Except.noConfusion hok
  · rename_i adds hadds
    split at hok
    · exact Except.noConfusion hok
    · rename_i perField hfm
      cases hok
      rw [dropTargets_append, dropTargets_append,
        dropTargets_addPlans _ _ adds hadds,
        dropTargets_fieldMigrations _ _ _ _ perField hfm,
        dropTargets_dropPlan] at hc
      simp only [List.nil_append, List.append_nil] at hc
      have hprot : c ∉ protectedColumns md := by
        intro hin
        unfold columnsToDropOf at hc
        rw [List.mem_filter] at hc
        have h2 := hc.2
        simp only [decide_eq_true_eq] at h2
        exact h2.2 (List.elem_iff.mpr hin)
      refine ⟨?_, ?_, ?_, ?_⟩
      · intro hEq; exact hprot (hEq ▸ (by simp [protectedColumns]))
      · intro hEq; exact hprot (hEq ▸ (by simp [protectedColumns]))
      · intro hEq; exact hprot (hEq ▸ (by simp [protectedColumns]))
      · intro o ho hne hEq
        apply hprot
        rw [hEq]
        simp [protectedColumns, ho, hne]

/-- The `product` schema with a stale `legacy` column to be dropped. -/
def legacySchema : List DbColumnInfo :=
  schemaAfterCreate [{ name := "name", colType := .string },
                     { name := "creatorId", colType := .number }] ++
  [{ column_name := "legacy", data_type := "text", is_nullable := "YES",
     column_default := none }]

/-- Witness for C8: remigrating `Product` over a schema with a stale
`legacy` column plans exactly one drop, of `legacy` — not of `id`,
`createdAt`, `updatedAt` or the owner field `creatorId`. -/
theorem protected_columns_never_dropped_witness :
    migrateTable (normalizeDefinition mdProductInput) legacySchema =
      .ok [(Stmt.dropColumn "product" "legacy",
            Change.dropColumn "legacy")] ∧
    "legacy" ≠ "id" ∧ "legacy" ≠ "createdAt" ∧ "legacy" ≠ "updatedAt" ∧
      (∀ o, (normalizeDefinition mdProductInput).ownerField = some o →
        o ≠ "" → "legacy" ≠ o) := by
  refine ⟨by decide, ?_⟩
  exact protected_columns_never_dropped (normalizeDefinition mdProductInput)
    legacySchema
    [(Stmt.dropColumn "product" "legacy", Change.dropColumn "legacy")]
    "legacy" (by decide) (by decide)

/-! ### Classifying validation failures (for identifier safety) -/

theorem checkRelation_error_class (reg : List String) (f : FieldDefinition)
    (e : SvcError) (h : checkRelation reg f = .error e) :
    e.isBadRequest = true ∨
      (e.isNotFound = true ∧ f.type = .relation ∧
        ∃ t, f.targetModel = some t ∧ reg.contains t = false) := by
  unfold checkRelation at h
  by_cases h1 : f.type = .relation
  · rw [if_pos h1] at h
    cases htm : f.targetModel with
    | none => simp only [htm] at h; cases h; left; rfl
    | some t =>
      simp only [htm] at h
      by_cases h2 : isValidIdentifier t = true
      · rw [if_neg (not_not_intro h2)] at h
        by_cases h3 : reg.contains t = true
        · rw [if_neg (not_not_intro h3)] at h
          exact Except.noConfusion h
        · rw [if_pos h3] at h
          cases h
          right
          exact ⟨rfl, h1, t, rfl, by simpa using h3⟩
      · rw [if_pos h2] at h; cases h; left; rfl
  · rw [if_neg h1] at h; exact Except.noConfusion h

theorem checkDefault_error_bad (f : FieldDefinition) (e : SvcError)
    (h : checkDefault f = .error e) : e.isBadRequest = true := by
  unfold checkDefault at h
  cases hd : f.default with
  | none => simp only [hd] at h; exact Except.noConfusion h
  | some v =>
    simp only [hd] at h
    by_cases h1 : isValidDefaultValue v f.type = true
    · rw [if_neg (not_not_intro h1)] at h; exact Except.noConfusion h
    · rw [if_pos h1] at h; cases h; rfl

theorem validateFields_error_class (reg : List String)
    (fs : List FieldDefinition) (seen : List String) (e : SvcError)
    (h : validateFields reg fs seen = .error e) :
    e.isBadRequest = true ∨
      (e.isNotFound = true ∧ ∃ f ∈ fs, f.type = .relation ∧
        ∃ t, f.targetModel = some t ∧ reg.contains t = false) := by
  induction fs generalizing seen with
  | nil => exact Except.noConfusion h
  | cons g fs ih =>
    unfold validateFields at h
    by_cases h1 : isValidIdentifier g.name = true
    · rw [if_neg (not_not_intro h1)] at h
      by_cases h2 : seen.contains (strLower g.name) = true
      · rw [if_pos h2] at h; cases h; left; rfl
      · rw [if_neg h2] at h
        cases hr : checkRelation reg g with
        | error e' =>
          simp only [hr] at h
          cases h
          rcases checkRelation_error_class reg g e hr with hb | ⟨hn, ht, t, htm, hreg⟩
          · exact Or.inl hb
          · exact Or.inr ⟨hn, g, List.mem_cons_self g fs, ht, t, htm, hreg⟩
        | ok v =>
          simp only [hr] at h
          cases hd : checkDefault g with
          | error e' =>
            simp only [hd] at h
            cases h
            exact Or.inl (checkDefault_error_bad g e hd)
          | ok w =>
            simp only [hd] at h
            rcases ih _ h with hb | ⟨hn, f, hf, ht, t, htm, hreg⟩
            · exact Or.inl hb
            · exact Or.inr ⟨hn, f, List.mem_cons_of_mem g hf, ht, t, htm,
                hreg⟩
    · rw [if_pos h1] at h; cases h; left; rfl

theorem validateFields_ok_names (reg : List String)
    (fs : List FieldDefinition) (seen : List String) (u : Unit)
    (h : validateFields reg fs seen = .ok u) :
    ∀ f ∈ fs, isValidIdentifier f.name = true := by
  induction fs generalizing seen with
  | nil => intro f hf; exact absurd hf (List.not_mem_nil f)
  | cons g fs ih =>
    intro f hf
    unfold validateFields at h
    by_cases h1 : isValidIdentifier g.name = true
    · rw [if_neg (not_not_intro h1)] at h
      by_cases h2 : seen.contains (strLower g.name) = true
      · rw [if_pos h2] at h; exact Except.noConfusion h
      · rw [if_neg h2] at h
        cases hr : checkRelation reg g with
        | error e' => simp only [hr] at h; exact Except.noConfusion h
        | ok v =>
          simp only [hr] at h
          cases hd : checkDefault g with
          | error e' => simp only [hd] at h; exact Except.noConfusion h
          | ok w =>
            simp only [hd] at h
            rcases List.mem_cons.mp hf with rfl | hmem
            · exact h1
            · exact ih _ h f hmem
    · rw [if_pos h1] at h; exact Except.noConfusion h

theorem validateOwnerField_error_bad (md : ModelDefinition) (e : SvcError)
    (h : validateOwnerField md = .error e) : e.isBadRequest = true := by
  unfold validateOwnerField at h
  cases ho : md.ownerField with
  | none => simp only [ho] at h; exact Except.noConfusion h
  | some o =>
    simp only [ho] at h
    by_cases h0 : o ≠ ""
    · rw [if_pos h0] at h
      by_cases h1 : isValidIdentifier o = true
      · rw [if_neg (not_not_intro h1)] at h
        cases hf : md.fields.find? (fun f => f.name = o) with
        | none => simp only [hf] at h; exact Except.noConfusion h
        | some fd =>
          simp only [hf] at h
          by_cases h2 : fd.type = .number
          · rw [if_neg (not_not_intro h2)] at h; exact Except.noConfusion h
          · rw [if_pos h2] at h; cases h; rfl
      · rw [if_pos h1] at h; cases h; rfl
    · rw [if_neg h0] at h; exact Except.noConfusion h

theorem validateModelDefinition_error_class (reg : List String)
    (md : ModelDefinition) (e : SvcError)
    (h : validateModelDefinition reg md = .error e) :
    e.isBadRequest = true ∨
      (e.isNotFound = true ∧ ∃ f ∈ md.fields, f.type = .relation ∧
        ∃ t, f.targetModel = some t ∧ reg.contains t = false) := by
  unfold validateModelDefinition at h
  by_cases h0 : md.name = ""
  · rw [if_pos h0] at h; cases h; left; rfl
  · rw [if_neg h0] at h
    by_cases h1 : isValidIdentifier md.name = true
    · rw [if_neg (not_not_intro h1)] at h
      by_cases h2 : reservedNames.contains (strLower md.name) = true
      · rw [if_pos h2] at h; cases h; left; rfl
      · rw [if_neg h2] at h
        cases htn : md.tableName with
        | some t =>
          simp only [htn] at h
          by_cases h3 : t ≠ "" ∧ ¬ isValidIdentifier t = true
          · rw [if_pos h3] at h; cases h; left; rfl
          · rw [if_neg h3] at h
            cases hvf : validateFields reg md.fields [] with
            | error e2 =>
              simp only [hvf] at h
              cases h
              exact validateFields_error_class reg md.fields [] e hvf
            | ok u =>
              simp only [hvf] at h
              exact Or.inl (validateOwnerField_error_bad md e h)
        | none =>
          simp only [htn] at h
          cases hvf : validateFields reg md.fields [] with
          | error e2 =>
            simp only [hvf] at h
            cases h
            exact validateFields_error_class reg md.fields [] e hvf
          | ok u =>
            simp only [hvf] at h
            exact Or.inl (validateOwnerField_error_bad md e h)
    · rw [if_pos h1] at h; cases h; left; rfl

theorem validateModelDefinition_ok_idents (reg : List String)
    (md : ModelDefinition) (u : Unit)
    (h : validateModelDefinition reg md = .ok u) :
    isValidIdentifier md.name = true ∧
    (∀ t, md.tableName = some t → t ≠ "" → isValidIdentifier t = true) ∧
    (∀ f ∈ md.fields, isValidIdentifier f.name = true) := by
  unfold validateModelDefinition at h
  by_cases h0 : md.name = ""
  · rw [if_pos h0] at h; exact Except.noConfusion h
  · rw [if_neg h0] at h
    by_cases h1 : isValidIdentifier md.name = true
    · rw [if_neg (not_not_intro h1)] at h
      by_cases h2 : reservedNames.contains (strLower md.name) = true
      · rw [if_pos h2] at h; exact Except.noConfusion h
      · rw [if_neg h2] at h
        cases htn : md.tableName with
        | some t =>
          simp only [htn] at h
          by_cases h3 : t ≠ "" ∧ ¬ isValidIdentifier t = true
          · rw [if_pos h3] at h; exact Except.noConfusion h
          · rw [if_neg h3] at h
            refine ⟨h1, ?_, ?_⟩
            · intro t' ht' hne
              injection ht' with heq
              subst heq
              exact not_not.mp (fun hb => h3 ⟨hne, hb⟩)
            · cases hvf : validateFields reg md.fields [] with
              | error e2 => simp only [hvf] at h; exact Except.noConfusion h
              | ok v => exact validateFields_ok_names reg md.fields [] v hvf
        | none =>
          simp only [htn] at h
          refine ⟨h1, ?_, ?_⟩
          · intro t' ht' hne
            exact Option.noConfusion ht'
          · cases hvf : validateFields reg md.fields [] with
            | error e2 => simp only [hvf] at h; exact Except.noConfusion h
            | ok v => exact validateFields_ok_names reg md.fields [] v hvf
    · rw [if_pos h1] at h; exact Except.noConfusion h

/-- C7 (amended).  Identifier safety: for a definition whose model name,
declared *non-empty* table name, or some field name is not a valid
identifier, publish fails before any DDL executes (the whole state is
unchanged); the failure is a `BadRequestException`, unless validation first
reaches a relation field naming an unregistered target model — then it is
that check's `NotFoundException`. -/
theorem identifier_safety (md : ModelDefinition) (execFails : Bool)
    (s : SysState)
    (hbad : isValidIdentifier md.name = false ∨
      (∃ t, md.tableName = some t ∧ t ≠ "" ∧ isValidIdentifier t = false) ∨
      (∃ f ∈ md.fields, isValidIdentifier f.name = false)) :
    ∃ e, (publishModel md execFails s).1 = .error e ∧
      (publishModel md execFails s).2 = s ∧
      (e.isBadRequest = true ∨
        (e.isNotFound = true ∧ ∃ f ∈ md.fields, f.type = .relation ∧
          ∃ t, f.targetModel = some t ∧
            (registryNames s).contains t = false)) := by
  cases hv : validateModelDefinition (registryNames s) md with
  | ok u =>
    exfalso
    obtain ⟨hn, htv, hfv⟩ := validateModelDefinition_ok_idents _ _ u hv
    rcases hbad with hb | ⟨t, ht, hne, hbv⟩ | ⟨f, hf, hbv⟩
    · rw [hn] at hb; exact Bool.noConfusion hb
    · rw [htv t ht hne] at hbv; exact Bool.noConfusion hbv
    · rw [hfv f hf] at hbv; exact Bool.noConfusion hbv
  | error e =>
    have h1 : (publishModel md execFails s).1 = .error e := by
      simp [publishModel, hv]
    refine ⟨e, h1, publishModel_error_state md execFails s e h1, ?_⟩
    exact validateModelDefinition_error_class _ _ e hv

/-- A definition whose invalid field name sits after a relation field
targeting the unregistered model `Ghost`. -/
def mdRelationThenBad : ModelDefinition :=
  { name := "Book2",
    fields := [{ name := "author", type := .relation,
                 targetModel := some "Ghost" },
               { name := "bad name", type := .string }] }

/-- A definition declaring the empty string as its table name. -/
def mdEmptyTableName : ModelDefinition :=
  { name := "Demo", tableName := some "",
    fields := [{ name := "n", type := .string }] }

/-- Counterexample for C7 as stated.  (1) `mdRelationThenBad` has a field
name with a space, yet publish fails with the relation-target
`NotFoundException` (404), not a `BadRequestException`, because the
relation field is validated first.  (2) The empty string — which does not
start with a letter or underscore — as a declared table name is skipped by
the JS-truthiness guard, and publish *succeeds*. -/
theorem identifier_safety_cx :
    isValidIdentifier "bad name" = false ∧
    (publishModel mdRelationThenBad false emptyState).1 =
      .error (.notFound (.relationTargetMissing "Ghost")) ∧
    (SvcError.notFound (.relationTargetMissing "Ghost")).isBadRequest =
      false ∧
    isValidIdentifier "" = false ∧
    (publishModel mdEmptyTableName false emptyState).1 =
      .ok { message := .created "Demo", changes := none,
            model := normalizeDefinition mdEmptyTableName } := by
  refine ⟨by decide, by decide, rfl, by decide, by decide⟩

/-- A definition with just an invalid field name. -/
def mdBadFieldName : ModelDefinition :=
  { name := "Demo2", fields := [{ name := "bad name", type := .string }] }

/-- Witness for C7: publishing a model with field name `bad name` fails
with the state untouched and a client error. -/
theorem identifier_safety_witness :
    ∃ e, (publishModel mdBadFieldName false emptyState).1 = .error e ∧
      (publishModel mdBadFieldName false emptyState).2 = emptyState ∧
      (e.isBadRequest = true ∨
        (e.isNotFound = true ∧ ∃ f ∈ mdBadFieldName.fields,
          f.type = .relation ∧ ∃ t, f.targetModel = some t ∧
            (registryNames emptyState).contains t = false)) := by
  exact identifier_safety mdBadFieldName false emptyState
    (Or.inr (Or.inr ⟨{ name := "bad name", type := .string }, by decide,
      by decide⟩))

/-! ### Idempotence of publish

The convergence argument: a catalog column *converged* to its field plans no
retype, no nullability change and no default change; a schema in which every
field has a (unique) converged column, every field name is present, and every
column is declared or protected, yields the empty migration plan. -/

/-- A catalog column that `migrateTable`'s per-field loop leaves alone. -/
def colConverged (f : FieldDefinition) (col : DbColumnInfo) : Prop :=
  (mapDbTypeToFieldType col.data_type = some f.type ∨
     mapDbTypeToFieldType col.data_type = none) ∧
  ((col.is_nullable = "YES") ↔ f.required = false) ∧
  (∃ nds, newDefaultSqlOf f = .ok nds ∧ nds = col.column_default)

/-- Catalog round trip: the canonical reported name of each created SQL type
classifies back to the same `FieldType` — except `relation`, whose `integer`
column classifies to `number`. -/
theorem mapDb_canonical (t : FieldType) (h : t ≠ .relation) :
    mapDbTypeToFieldType (canonicalDbType t) = some t := by
  cases t with
  | string => decide
  | number => decide
  | boolean => decide
  | date => decide
  | relation => exact absurd rfl h

/-- The `integer` column of a relation field classifies back to `number`,
not `relation`: the source of the republish non-idempotence. -/
theorem mapDb_canonical_relation :
    mapDbTypeToFieldType (canonicalDbType .relation) = some .number := by
  decide

/-- The migrate loop's unchecked default quoting agrees with the validated
quoting of `mapFieldToSql`. -/
theorem fieldDefaultSql_newDefaultSql (f : FieldDefinition) (d : Option String)
    (h : fieldDefaultSql f = .ok d) : newDefaultSqlOf f = .ok d := by
  unfold fieldDefaultSql at h
  unfold newDefaultSqlOf
  by_cases hp : defaultPresent f = true
  · rw [if_pos hp] at h; rw [if_pos hp]
    cases hd : f.default with
    | none => simp only [hd] at h ⊢; exact h
    | some v =>
      simp only [hd] at h ⊢
      by_cases hvd : isValidDefaultValue v f.type = true
      · rw [if_neg (not_not_intro hvd)] at h; exact h
      · rw [if_pos hvd] at h; exact Except.noConfusion h
  · rw [if_neg hp] at h; rw [if_neg hp]; exact h

/-- What a successful `mapFieldToSql` says about its column specification. -/
theorem mapFieldToSql_ok_spec (f : FieldDefinition) (spec : ColSpec)
    (h : mapFieldToSql f = .ok spec) :
    spec.name = f.name ∧ spec.colType = f.type ∧
      spec.notNull = f.required ∧ fieldDefaultSql f = .ok spec.defaultSql := by
  unfold mapFieldToSql at h
  by_cases h1 : isValidIdentifier f.name = true
  · rw [if_neg (not_not_intro h1)] at h
    cases hr : relationRefs f with
    | error e => simp only [hr] at h; exact Except.noConfusion h
    | ok refs =>
      simp only [hr] at h
      cases hd : fieldDefaultSql f with
      | error e => simp only [hd] at h; exact Except.noConfusion h
      | ok dflt =>
        simp only [hd] at h
        cases h
        exact ⟨rfl, rfl, rfl, rfl⟩
  · rw [if_pos h1] at h; exact Except.noConfusion h

/-- A converged column of an unprotected field plans nothing. -/
theorem fieldMigration_converged (tableName : String)
    (schema : List DbColumnInfo) (prot : List String) (f : FieldDefinition)
    (col : DbColumnInfo)
    (hfind : schema.find? (fun c => c.column_name = f.name) = some col)
    (hconv : colConverged f col) :
    fieldMigration tableName schema prot f = .ok [] := by
  obtain ⟨htype, hnull, nds, hnds, hdsame⟩ := hconv
  unfold fieldMigration
  simp only [hfind]
  by_cases hp : prot.contains f.name = true
  · rw [if_pos hp]
  · rw [if_neg hp]
    have hret : retypePlanOf tableName col f = [] := by
      unfold retypePlanOf
      rcases htype with hsome | hnone
      · simp [hsome]
      · simp [hnone]
    have hnp : fieldNullabilityPlan tableName col f = .ok [] := by
      unfold fieldNullabilityPlan
      cases hreq : f.required with
      | true =>
        rw [hreq] at hnull
        have hnn : ¬ (col.is_nullable = "YES") :=
          fun hy => Bool.noConfusion (hnull.mp hy)
        rw [if_neg (fun hc => hnn hc.2), if_neg (fun hc => hc.1 rfl)]
      | false =>
        rw [hreq] at hnull
        have hy : col.is_nullable = "YES" := hnull.mpr rfl
        rw [if_neg (fun hc => Bool.noConfusion hc.1),
          if_neg (fun hc => hc.2 hy)]
    have hdp : defaultPlanOf tableName col f nds = [] := by
      unfold defaultPlanOf
      rw [if_neg (by rw [hdsame]; exact fun hc => hc rfl)]
    simp only [hnp, hnds, hret, hdp]
    rfl

/-- A protected field plans nothing. -/
theorem fieldMigration_protected (tableName : String)
    (schema : List DbColumnInfo) (prot : List String) (f : FieldDefinition)
    (hp : prot.contains f.name = true) :
    fieldMigration tableName schema prot f = .ok [] := by
  unfold fieldMigration
  cases hfind : schema.find? (fun c => c.column_name = f.name) with
  | none => rfl
  | some col => simp only [hfind]; rw [if_pos hp]

theorem fieldMigrations_empty (tableName : String)
    (schema : List DbColumnInfo) (prot : List String)
    (fs : List FieldDefinition)
    (h : ∀ f ∈ fs, fieldMigration tableName schema prot f = .ok []) :
    fieldMigrations tableName schema prot fs = .ok [] := by
  induction fs with
  | nil => rfl
  | cons f fs ih =>
    unfold fieldMigrations
    rw [h f (List.mem_cons_self f fs), ih
      (fun g hg => h g (List.mem_cons_of_mem f hg))]
    rfl

/-- The empty migration plan: every declared field has a live column, every
live column is declared or protected, and no per-field change is planned. -/
theorem migrateTable_empty (md : ModelDefinition)
    (schema : List DbColumnInfo)
    (hadd : columnsToAddOf md schema = [])
    (hdrop : columnsToDropOf md schema = [])
    (hfm : ∀ f ∈ md.fields,
      fieldMigration (md.tableName.getD "") schema (protectedColumns md) f =
        .ok []) :
    migrateTable md schema = .ok [] := by
  simp only [migrateTable, hadd, hdrop, addPlans, List.map_nil]
  rw [fieldMigrations_empty (md.tableName.getD "") schema
    (protectedColumns md) md.fields hfm]
  rfl

/-- All declared field names present in the schema ⇒ nothing to add. -/
theorem columnsToAddOf_nil (md : ModelDefinition)
    (schema : List DbColumnInfo)
    (h : ∀ f ∈ md.fields, f.name ∈ schema.map (fun c => c.column_name)) :
    columnsToAddOf md schema = [] := by
  unfold columnsToAddOf
  rw [List.filter_eq_nil_iff]
  intro f hf
  have hmem := h f hf
  rw [List.mem_map] at hmem
  obtain ⟨col, hcol, heq⟩ := hmem
  simp
  exact ⟨col, hcol, heq⟩

/-- Every live column declared or protected ⇒ nothing to drop. -/
theorem columnsToDropOf_nil (md : ModelDefinition)
    (schema : List DbColumnInfo)
    (h : ∀ col ∈ schema, col.column_name ∈ md.fields.map (fun f => f.name) ∨
      col.column_name ∈ protectedColumns md) :
    columnsToDropOf md schema = [] := by
  unfold columnsToDropOf
  rw [List.filter_eq_nil_iff]
  intro cname hc
  rw [List.mem_map] at hc
  obtain ⟨col, hcol, rfl⟩ := hc
  rcases h col hcol with h1 | h1
  · simp
    intro hnone
    rw [List.mem_map] at h1
    obtain ⟨g, hg, heq⟩ := h1
    exact absurd heq (hnone g hg)
  · simp
    intro hnone
    exact h1

/-! The freshly created table is converged. -/

theorem mapFieldsToSpecs_corr (fs : List FieldDefinition)
    (specs : List ColSpec) (h : mapFieldsToSpecs fs = .ok specs) :
    List.Forall₂ (fun f spec => mapFieldToSql f = .ok spec) fs specs := by
  induction fs generalizing specs with
  | nil => cases h; exact List.Forall₂.nil
  | cons f fs ih =>
    unfold mapFieldsToSpecs at h
    cases hs : mapFieldToSql f with
    | error e => simp only [hs] at h; exact Except.noConfusion h
    | ok spec =>
      simp only [hs] at h
      cases hr : mapFieldsToSpecs fs with
      | error e => simp only [hr] at h; exact Except.noConfusion h
      | ok rest =>
        simp only [hr] at h
        cases h
        exact List.Forall₂.cons hs (ih rest hr)

theorem specs_names (fs : List FieldDefinition) (specs : List ColSpec)
    (h : List.Forall₂ (fun f spec => mapFieldToSql f = .ok spec) fs specs) :
    specs.map (fun s => s.name) = fs.map (fun f => f.name) := by
  induction h with
  | nil => rfl
  | cons hR hrest ih =>
    obtain ⟨hn, _, _, _⟩ := mapFieldToSql_ok_spec _ _ hR
    simp [hn, ih]

/-- The column of a successfully mapped, non-relation field with no
effective declared default is converged.  (With a string/boolean/date
default the stored expression is reported canonicalized and never matches
the service's quoted text, so such a column never converges: part of C3's
counterexample.) -/
theorem specColumn_converged (f : FieldDefinition) (spec : ColSpec)
    (hok : mapFieldToSql f = .ok spec) (hrel : f.type ≠ .relation)
    (hdef : defaultPresent f = false) :
    colConverged f (specColumn spec) := by
  obtain ⟨hn, ht, hr, hd⟩ := mapFieldToSql_ok_spec f spec hok
  have hfd : fieldDefaultSql f = .ok none := by
    simp [fieldDefaultSql, hdef]
  have hds : spec.defaultSql = none := Except.ok.inj (hd.symm.trans hfd)
  refine ⟨Or.inl ?_, ?_, none, ?_, ?_⟩
  · show mapDbTypeToFieldType (canonicalDbType spec.colType) = some f.type
    rw [ht]
    exact mapDb_canonical f.type hrel
  · show ((if spec.notNull then "NO" else "YES") = "YES") ↔
      f.required = false
    rw [hr]
    cases f.required <;> simp
  · simp [newDefaultSqlOf, hdef]
  · show (none : Option String) = (specColumn spec).column_default
    simp [specColumn, hds]

theorem findSpec (gs : List FieldDefinition) (specs : List ColSpec)
    (hcorr : List.Forall₂ (fun f spec => mapFieldToSql f = .ok spec) gs specs)
    (hnd : (gs.map (fun f => f.name)).Nodup) (f : FieldDefinition)
    (hf : f ∈ gs) :
    ∃ spec, mapFieldToSql f = .ok spec ∧
      (specs.map specColumn).find? (fun c => c.column_name = f.name) =
        some (specColumn spec) := by
  induction hcorr with
  | nil => exact absurd hf (List.not_mem_nil f)
  | cons hR hrest ih =>
    rename_i g s0 gs' specs'
    rw [List.map_cons, List.nodup_cons] at hnd
    obtain ⟨hn0, _, _, _⟩ := mapFieldToSql_ok_spec _ _ hR
    rcases List.mem_cons.mp hf with rfl | hmem
    · refine ⟨s0, hR, ?_⟩
      rw [List.map_cons, List.find?_cons_of_pos _ (by simp [specColumn, hn0])]
    · have hne : s0.name ≠ f.name := by
        rw [hn0]
        intro hc
        exact hnd.1 (hc ▸ List.mem_map_of_mem (fun x => x.name) hmem)
      obtain ⟨spec, hok, hfind⟩ := ih hnd.2 hmem
      refine ⟨spec, hok, ?_⟩
      rw [List.map_cons, List.find?_cons_of_neg _ (by simp [specColumn, hne])]
      exact hfind

theorem schemaAfterCreate_find (gs : List FieldDefinition)
    (specs : List ColSpec)
    (hcorr : List.Forall₂ (fun f spec => mapFieldToSql f = .ok spec) gs specs)
    (hnd : (gs.map (fun f => f.name)).Nodup) (f : FieldDefinition)
    (hf : f ∈ gs)
    (hsys : f.name ∉ (["id", "createdAt", "updatedAt"] : List String)) :
    ∃ spec, mapFieldToSql f = .ok spec ∧
      (schemaAfterCreate specs).find? (fun c => c.column_name = f.name) =
        some (specColumn spec) := by
  obtain ⟨spec, hok, hfind⟩ := findSpec gs specs hcorr hnd f hf
  refine ⟨spec, hok, ?_⟩
  simp only [List.mem_cons, List.not_mem_nil, or_false, not_or] at hsys
  obtain ⟨h1, h2, h3⟩ := hsys
  unfold schemaAfterCreate
  rw [List.find?_append]
  have hsysnone :
      systemColumns.find? (fun c => c.column_name = f.name) = none := by
    unfold systemColumns
    rw [List.find?_cons_of_neg _ (by simp [Ne.symm h1]),
      List.find?_cons_of_neg _ (by simp [Ne.symm h2]),
      List.find?_cons_of_neg _ (by simp [Ne.symm h3])]
    rfl
  rw [hsysnone, hfind]
  rfl

/-- Remigrating a freshly created table with no declared defaults plans no
changes. -/
theorem migrate_after_create (md : ModelDefinition) (specs : List ColSpec)
    (hspecs : mapFieldsToSpecs md.fields = .ok specs)
    (hnd : (md.fields.map (fun f => f.name)).Nodup)
    (hrel : ∀ f ∈ md.fields, f.type ≠ .relation)
    (hsys : ∀ f ∈ md.fields,
      f.name ∉ (["id", "createdAt", "updatedAt"] : List String))
    (hdef : ∀ f ∈ md.fields, defaultPresent f = false) :
    migrateTable md (schemaAfterCreate specs) = .ok [] := by
  have hcorr := mapFieldsToSpecs_corr _ _ hspecs
  apply migrateTable_empty
  · apply columnsToAddOf_nil
    intro f hf
    obtain ⟨spec, hok, hfind⟩ :=
      schemaAfterCreate_find md.fields specs hcorr hnd f hf (hsys f hf)
    have hmem := List.mem_of_find?_eq_some hfind
    have heq := List.find?_some hfind
    simp only [decide_eq_true_eq] at heq
    exact heq ▸ List.mem_map_of_mem (fun c => c.column_name) hmem
  · apply columnsToDropOf_nil
    intro col hcol
    unfold schemaAfterCreate at hcol
    rcases List.mem_append.mp hcol with hsysm | hspecm
    · right
      simp only [systemColumns, List.mem_cons, List.not_mem_nil,
        or_false] at hsysm
      rcases hsysm with rfl | rfl | rfl <;> simp [protectedColumns]
    · left
      rw [List.mem_map] at hspecm
      obtain ⟨spec', hspec', rfl⟩ := hspecm
      show spec'.name ∈ md.fields.map (fun f => f.name)
      rw [← specs_names md.fields specs hcorr]
      exact List.mem_map_of_mem (fun s => s.name) hspec'
  · intro f hf
    obtain ⟨spec, hok, hfind⟩ :=
      schemaAfterCreate_find md.fields specs hcorr hnd f hf (hsys f hf)
    exact fieldMigration_converged _ _ _ f (specColumn spec) hfind
      (specColumn_converged f spec hok (hrel f hf) (hdef f hf))

/-! Applying a migration plan to the catalog.  The per-field statements are
per-column *modifiers*: each targets one column name and rewrites that
column in place, so applying them factors through `List.map`. -/

/-- The column a modifier statement rewrites (`none` for non-modifiers). -/
def stmtCol : Stmt → Option String
  | .alterType _ c _ => some c
  | .setNotNull _ c => some c
  | .dropNotNull _ c => some c
  | .setDefault _ c _ => some c
  | .dropDefault _ c => some c
  | .backfillNulls _ c _ => some c
  | _ => none

/-- The action of one modifier statement on one catalog column. -/
def colApply (m : Stmt) (col : DbColumnInfo) : DbColumnInfo :=
  match m with
  | .alterType _ c t =>
    if col.column_name = c then { col with data_type := canonicalDbType t }
    else col
  | .setNotNull _ c =>
    if col.column_name = c then { col with is_nullable := "NO" } else col
  | .dropNotNull _ c =>
    if col.column_name = c then { col with is_nullable := "YES" } else col
  | .setDefault _ c d =>
    if col.column_name = c then
      { col with column_default := some (canonicalColumnDefault d col.data_type) }
    else col
  | .dropDefault _ c =>
    if col.column_name = c then { col with column_default := none } else col
  | _ => col

/-- Sequential per-column application of a statement list. -/
def applyMods (ms : List Stmt) (col : DbColumnInfo) : DbColumnInfo :=
  ms.foldl (fun c m => colApply m c) col

theorem applyMods_append (a b : List Stmt) (col : DbColumnInfo) :
    applyMods (a ++ b) col = applyMods b (applyMods a col) :=
  List.foldl_append _ _ a b

theorem colApply_name (m : Stmt) (col : DbColumnInfo) :
    (colApply m col).column_name = col.column_name := by
  cases m <;> simp only [colApply] <;> split <;> rfl

theorem colApply_miss (m : Stmt) (col : DbColumnInfo) (c : String)
    (htgt : stmtCol m = some c) (hne : col.column_name ≠ c) :
    colApply m col = col := by
  cases m <;> simp only [stmtCol] at htgt <;>
    try exact Option.noConfusion htgt
  all_goals cases htgt
  all_goals simp [colApply, hne]

theorem applyMods_name (ms : List Stmt) (col : DbColumnInfo) :
    (applyMods ms col).column_name = col.column_name := by
  induction ms generalizing col with
  | nil => rfl
  | cons m ms ih =>
    show (applyMods ms (colApply m col)).column_name = _
    rw [ih, colApply_name]

theorem applyMods_noTarget (ms : List Stmt) (col : DbColumnInfo)
    (h : ∀ m ∈ ms, ∃ c, stmtCol m = some c ∧ c ≠ col.column_name) :
    applyMods ms col = col := by
  induction ms with
  | nil => rfl
  | cons m ms ih =>
    obtain ⟨c, htgt, hne⟩ := h m (List.mem_cons_self m ms)
    show applyMods ms (colApply m col) = col
    rw [colApply_miss m col c htgt (Ne.symm hne)]
    exact ih (fun m' hm' => h m' (List.mem_cons_of_mem m hm'))

/-- All statements a field's migration plans target that field's column. -/
theorem fieldMigration_targets (t : String) (sch : List DbColumnInfo)
    (prot : List String) (f : FieldDefinition) (part : List (Stmt × Change))
    (h : fieldMigration t sch prot f = .ok part) :
    ∀ p ∈ part, stmtCol p.1 = some f.name := by
  intro p hp
  unfold fieldMigration at h
  split at h
  · cases h; exact absurd hp (List.not_mem_nil p)
  · rename_i col heqfind
    split at h
    · cases h; exact absurd hp (List.not_mem_nil p)
    · split at h
      · exact Except.noConfusion h
      · rename_i nullPart hnp
        split at h
        · exact Except.noConfusion h
        · rename_i newDefault hnd
          cases h
          rcases List.mem_append.mp hp with hp' | hp'
          · rcases List.mem_append.mp hp' with hp'' | hp''
            · unfold retypePlanOf at hp''
              split at hp''
              · split at hp''
                · rcases List.mem_cons.mp hp'' with rfl | hfalse
                  · rfl
                  · exact absurd hfalse (List.not_mem_nil p)
                · exact absurd hp'' (List.not_mem_nil p)
              · exact absurd hp'' (List.not_mem_nil p)
            · unfold fieldNullabilityPlan at hnp
              split at hnp
              · split at hnp
                · exact Except.noConfusion hnp
                · rename_i q hq
                  cases hnp
                  rcases List.mem_cons.mp hp'' with rfl | hp3
                  · rfl
                  · rcases List.mem_cons.mp hp3 with rfl | hfalse
                    · rfl
                    · exact absurd hfalse (List.not_mem_nil p)
              · split at hnp
                · cases hnp
                  rcases List.mem_cons.mp hp'' with rfl | hfalse
                  · rfl
                  · exact absurd hfalse (List.not_mem_nil p)
                · cases hnp; exact absurd hp'' (List.not_mem_nil p)
          · unfold defaultPlanOf at hp'
            split at hp'
            · split at hp'
              · rcases List.mem_cons.mp hp' with rfl | hfalse
                · rfl
                · exact absurd hfalse (List.not_mem_nil p)
              · split at hp'
                · rcases List.mem_cons.mp hp' with rfl | hfalse
                  · rfl
                  · exact absurd hfalse (List.not_mem_nil p)
                · exact absurd hp' (List.not_mem_nil p)
            · exact absurd hp' (List.not_mem_nil p)

/-- Every planned per-field statement targets some declared field. -/
theorem fieldMigrations_targets (t : String) (sch : List DbColumnInfo)
    (prot : List String) (fs : List FieldDefinition)
    (out : List (Stmt × Change))
    (h : fieldMigrations t sch prot fs = .ok out) :
    ∀ p ∈ out, ∃ g ∈ fs, stmtCol p.1 = some g.name := by
  induction fs generalizing out with
  | nil => cases h; intro p hp; exact absurd hp (List.not_mem_nil p)
  | cons g fs ih =>
    unfold fieldMigrations at h
    cases hg : fieldMigration t sch prot g with
    | error e => simp only [hg] at h; exact Except.noConfusion h
    | ok part =>
      simp only [hg] at h
      cases hr : fieldMigrations t sch prot fs with
      | error e => simp only [hr] at h; exact Except.noConfusion h
      | ok rest =>
        simp only [hr] at h
        cases h
        intro p hp
        rcases List.mem_append.mp hp with hp' | hp'
        · exact ⟨g, List.mem_cons_self g fs,
            fieldMigration_targets t sch prot g part hg p hp'⟩
        · obtain ⟨g', hg', htgt⟩ := ih rest hr p hp'
          exact ⟨g', List.mem_cons_of_mem g hg', htgt⟩

/-- On a column named after field `f`, the whole per-field plan acts exactly
as `f`'s own sub-plan (field names being distinct). -/
theorem fieldMigrations_apply_at (t : String) (sch : List DbColumnInfo)
    (prot : List String) (fs : List FieldDefinition)
    (out : List (Stmt × Change))
    (hout : fieldMigrations t sch prot fs = .ok out)
    (hnd : (fs.map (fun f => f.name)).Nodup)
    (f : FieldDefinition) (hf : f ∈ fs) (part : List (Stmt × Change))
    (hpart : fieldMigration t sch prot f = .ok part)
    (col : DbColumnInfo) (hname : col.column_name = f.name) :
    applyMods (out.map (fun p => p.1)) col =
      applyMods (part.map (fun p => p.1)) col := by
  induction fs generalizing out col with
  | nil => exact absurd hf (List.not_mem_nil f)
  | cons g fs ih =>
    rw [List.map_cons, List.nodup_cons] at hnd
    unfold fieldMigrations at hout
    cases hg : fieldMigration t sch prot g with
    | error e => simp only [hg] at hout; exact Except.noConfusion hout
    | ok gpart =>
      simp only [hg] at hout
      cases hr : fieldMigrations t sch prot fs with
      | error e => simp only [hr] at hout; exact Except.noConfusion hout
      | ok rest =>
        simp only [hr] at hout
        cases hout
        rw [List.map_append, applyMods_append]
        rcases List.mem_cons.mp hf with rfl | hmem
        · rw [hpart] at hg
          cases hg
          apply applyMods_noTarget
          intro m hm
          rw [List.mem_map] at hm
          obtain ⟨p, hp, rfl⟩ := hm
          obtain ⟨g', hg', htgt⟩ := fieldMigrations_targets t sch prot fs
            rest hr p hp
          refine ⟨g'.name, htgt, ?_⟩
          rw [applyMods_name, hname]
          intro hc
          exact hnd.1 (hc ▸ List.mem_map_of_mem (fun x => x.name) hg')
        · have hgne : g.name ≠ f.name := by
            intro hc
            exact hnd.1 (hc ▸ List.mem_map_of_mem (fun x => x.name) hmem)
          rw [applyMods_noTarget (gpart.map (fun p => p.1)) col ?_]
          · exact ih rest hr hnd.2 hmem col hname
          · intro m hm
            rw [List.mem_map] at hm
            obtain ⟨p, hp, rfl⟩ := hm
            refine ⟨g.name,
              fieldMigration_targets t sch prot g gpart hg p hp, ?_⟩
            rw [hname]
            exact hgne

theorem applyMods_nil (col : DbColumnInfo) : applyMods [] col = col := rfl

theorem applyMods_cons (m : Stmt) (ms : List Stmt) (col : DbColumnInfo) :
    applyMods (m :: ms) col = applyMods ms (colApply m col) := rfl

theorem colApply_alterType_self (t c : String) (ty : FieldType)
    (col : DbColumnInfo) (h : col.column_name = c) :
    colApply (Stmt.alterType t c ty) col =
      { col with data_type := canonicalDbType ty } := by
  simp [colApply, h]

theorem colApply_setNotNull_self (t c : String) (col : DbColumnInfo)
    (h : col.column_name = c) :
    colApply (Stmt.setNotNull t c) col =
      { col with is_nullable := "NO" } := by
  simp [colApply, h]

theorem colApply_dropNotNull_self (t c : String) (col : DbColumnInfo)
    (h : col.column_name = c) :
    colApply (Stmt.dropNotNull t c) col =
      { col with is_nullable := "YES" } := by
  simp [colApply, h]

theorem colApply_setDefault_self (t c d : String) (col : DbColumnInfo)
    (h : col.column_name = c) :
    colApply (Stmt.setDefault t c d) col =
      { col with column_default := some (canonicalColumnDefault d col.data_type) } := by
  simp [colApply, h]

theorem colApply_dropDefault_self (t c : String) (col : DbColumnInfo)
    (h : col.column_name = c) :
    colApply (Stmt.dropDefault t c) col =
      { col with column_default := none } := by
  simp [colApply, h]

theorem colApply_backfill (t c q : String) (col : DbColumnInfo) :
    colApply (Stmt.backfillNulls t c q) col = col := rfl

theorem retypePlanOf_none (t : String) (col : DbColumnInfo)
    (f : FieldDefinition)
    (hm : mapDbTypeToFieldType col.data_type = none) :
    retypePlanOf t col f = [] := by
  simp [retypePlanOf, hm]

theorem retypePlanOf_skip (t : String) (col : DbColumnInfo)
    (f : FieldDefinition)
    (hm : mapDbTypeToFieldType col.data_type = some f.type) :
    retypePlanOf t col f = [] := by
  simp [retypePlanOf, hm]

theorem retypePlanOf_retype (t : String) (col : DbColumnInfo)
    (f : FieldDefinition) (cur : FieldType)
    (hm : mapDbTypeToFieldType col.data_type = some cur)
    (hcc : cur ≠ f.type) :
    retypePlanOf t col f =
      [(Stmt.alterType t f.name f.type, Change.retype f.name cur f.type)] := by
  simp [retypePlanOf, hm, hcc]

theorem defaultPlanOf_eq_nil (t : String) (col : DbColumnInfo)
    (f : FieldDefinition) (nds : Option String)
    (h : nds = col.column_default) :
    defaultPlanOf t col f nds = [] := by
  simp [defaultPlanOf, h]

theorem defaultPlanOf_set (t : String) (col : DbColumnInfo)
    (f : FieldDefinition) (d : String) (h : some d ≠ col.column_default) :
    defaultPlanOf t col f (some d) =
      [(Stmt.setDefault t f.name d, Change.setDefault f.name d)] := by
  simp [defaultPlanOf, h]

theorem defaultPlanOf_drop (t : String) (col : DbColumnInfo)
    (f : FieldDefinition) (d0 : String) (h : col.column_default = some d0) :
    defaultPlanOf t col f none =
      [(Stmt.dropDefault t f.name, Change.removeDefault f.name)] := by
  simp [defaultPlanOf, h]

/-- Applying the migration sub-plan of a default-free field to its column
converges it: after the planned retype, nullability and default statements
run, the per-field loop finds nothing left to change.  (A field with an
effective string/boolean/date default never converges: the stored `SET
DEFAULT` expression is reported canonicalized and keeps mismatching the
quoted text — C3's counterexample.) -/
theorem fieldMigration_apply_converged (t : String)
    (sch : List DbColumnInfo) (prot : List String) (f : FieldDefinition)
    (col : DbColumnInfo) (part : List (Stmt × Change))
    (hfind : sch.find? (fun c => c.column_name = f.name) = some col)
    (hprot : ¬ prot.contains f.name = true)
    (hrel : f.type ≠ .relation)
    (hdef : defaultPresent f = false)
    (hpart : fieldMigration t sch prot f = .ok part)
    (hname : col.column_name = f.name) :
    colConverged f (applyMods (part.map (fun p => p.1)) col) := by
  unfold fieldMigration at hpart
  simp only [hfind] at hpart
  rw [if_neg hprot] at hpart
  cases hnp : fieldNullabilityPlan t col f with
  | error e => simp only [hnp] at hpart; exact Except.noConfusion hpart
  | ok nullPart =>
    simp only [hnp] at hpart
    cases hnd : newDefaultSqlOf f with
    | error e => simp only [hnd] at hpart; exact Except.noConfusion hpart
    | ok nds =>
      simp only [hnd] at hpart
      cases hpart
      have hnds0 : nds = none := by
        have h0 : newDefaultSqlOf f = .ok none := by
          simp [newDefaultSqlOf, hdef]
        rw [hnd] at h0
        exact Except.ok.inj h0
      subst hnds0
      rw [List.map_append, List.map_append, applyMods_append,
        applyMods_append]
      generalize hc1 :
        applyMods ((retypePlanOf t col f).map (fun p => p.1)) col = col1
      have h1 : (mapDbTypeToFieldType col1.data_type = some f.type ∨
            mapDbTypeToFieldType col1.data_type = none) ∧
          col1.is_nullable = col.is_nullable ∧
          col1.column_default = col.column_default ∧
          col1.column_name = col.column_name := by
        rw [← hc1]
        cases hm : mapDbTypeToFieldType col.data_type with
        | none =>
          rw [retypePlanOf_none t col f hm, List.map_nil, applyMods_nil]
          exact ⟨Or.inr hm, rfl, rfl, rfl⟩
        | some cur =>
          by_cases hcc : cur = f.type
          · rw [hcc] at hm
            rw [retypePlanOf_skip t col f hm, List.map_nil, applyMods_nil]
            exact ⟨Or.inl hm, rfl, rfl, rfl⟩
          · rw [retypePlanOf_retype t col f cur hm hcc,
              List.map_cons, List.map_nil, applyMods_cons, applyMods_nil,
              colApply_alterType_self t f.name f.type col hname]
            exact ⟨Or.inl (mapDb_canonical f.type hrel), rfl, rfl, rfl⟩
      have hn1 : col1.column_name = f.name := by
        rw [h1.2.2.2, hname]
      generalize hc2 :
        applyMods (nullPart.map (fun p => p.1)) col1 = col2
      have h2 : ((col2.is_nullable = "YES") ↔ f.required = false) ∧
          col2.data_type = col1.data_type ∧
          col2.column_default = col1.column_default ∧
          col2.column_name = col1.column_name := by
        rw [← hc2]
        unfold fieldNullabilityPlan at hnp
        split at hnp
        · rename_i hcond
          split at hnp
          · exact Except.noConfusion hnp
          · rename_i q hq
            cases hnp
            rw [List.map_cons, List.map_cons, List.map_nil,
              applyMods_cons, applyMods_cons, applyMods_nil,
              colApply_backfill, colApply_setNotNull_self t f.name col1 hn1]
            refine ⟨?_, rfl, rfl, rfl⟩
            constructor
            · intro hx
              simp at hx
            · intro hx
              rw [hcond.1] at hx
              exact Bool.noConfusion hx
        · rename_i hcond1
          split at hnp
          · rename_i hcond2
            cases hnp
            rw [List.map_cons, List.map_nil, applyMods_cons, applyMods_nil,
              colApply_dropNotNull_self t f.name col1 hn1]
            refine ⟨?_, rfl, rfl, rfl⟩
            have hreq : f.required = false := by
              simpa using hcond2.1
            simp [hreq]
          · rename_i hcond2
            cases hnp
            rw [List.map_nil, applyMods_nil]
            refine ⟨?_, rfl, rfl, rfl⟩
            rw [h1.2.1]
            constructor
            · intro hy
              have hnr : ¬ f.required = true := fun hr => hcond1 ⟨hr, hy⟩
              simpa using hnr
            · intro hreq
              by_contra hny
              exact hcond2 ⟨by simp [hreq], hny⟩
      have hn2 : col2.column_name = f.name := by
        rw [h2.2.2.2, hn1]
      unfold colConverged
      by_cases hne : (none : Option String) ≠ col.column_default
      · cases hcd : col.column_default with
        | none =>
          rw [hcd] at hne
          exact absurd rfl hne
        | some d0 =>
          rw [defaultPlanOf_drop t col f d0 hcd, List.map_cons,
            List.map_nil, applyMods_cons, applyMods_nil,
            colApply_dropDefault_self t f.name col2 hn2]
          refine ⟨?_, h2.1, none, hnd, rfl⟩
          show mapDbTypeToFieldType col2.data_type = some f.type ∨
            mapDbTypeToFieldType col2.data_type = none
          rw [h2.2.1]
          exact h1.1
      · rw [not_not] at hne
        rw [defaultPlanOf_eq_nil t col f none hne, List.map_nil,
          applyMods_nil]
        refine ⟨?_, h2.1, none, hnd, ?_⟩
        · rw [h2.2.1]
          exact h1.1
        · rw [h2.2.2.1, h1.2.2.1, ← hne]

theorem applyPlan_append (a b : List (Stmt × Change))
    (sch : List DbColumnInfo) :
    applyPlan (a ++ b) sch = applyPlan b (applyPlan a sch) :=
  List.foldl_append _ _ a b

/-- A modifier statement acts on the catalog columnwise. -/
theorem applyStmt_modifier (m : Stmt) (c : String)
    (h : stmtCol m = some c) (sch : List DbColumnInfo) :
    applyStmt sch m = sch.map (colApply m) := by
  cases m <;> try exact Option.noConfusion h
  case alterType t0 c0 ty => rfl
  case setNotNull t0 c0 => rfl
  case dropNotNull t0 c0 => rfl
  case setDefault t0 c0 d0 => rfl
  case dropDefault t0 c0 => rfl
  case backfillNulls t0 c0 v0 =>
    show sch = sch.map (fun x => x)
    exact (List.map_id sch).symm

/-- A plan of modifier statements factors through `List.map`. -/
theorem applyPlan_mods (ps : List (Stmt × Change)) (sch : List DbColumnInfo)
    (h : ∀ p ∈ ps, ∃ c, stmtCol p.1 = some c) :
    applyPlan ps sch =
      sch.map (fun col => applyMods (ps.map (fun p => p.1)) col) := by
  induction ps generalizing sch with
  | nil =>
    show sch = sch.map (fun col => col)
    exact (List.map_id sch).symm
  | cons p ps ih =>
    obtain ⟨c, hc⟩ := h p (List.mem_cons_self p ps)
    show applyPlan ps (applyStmt sch p.1) = _
    rw [applyStmt_modifier p.1 c hc sch,
      ih _ (fun q hq => h q (List.mem_cons_of_mem p hq)), List.map_map]
    rfl

/-- Applying the `ADD COLUMN` statements of `addPlans` appends the new
columns, in declaration order. -/
theorem applyPlan_addPlans (t : String) (fs : List FieldDefinition)
    (adds : List (Stmt × Change)) (h : addPlans t fs = .ok adds)
    (sch : List DbColumnInfo) :
    ∃ specs, List.Forall₂ (fun f spec => mapFieldToSql f = .ok spec) fs specs ∧
      applyPlan adds sch = sch ++ specs.map specColumn := by
  induction fs generalizing adds sch with
  | nil =>
    cases h
    exact ⟨[], List.Forall₂.nil, by simp [applyPlan]⟩
  | cons f fs ih =>
    unfold addPlans at h
    cases hs : mapFieldToSql f with
    | error e => simp only [hs] at h; exact Except.noConfusion h
    | ok spec =>
      simp only [hs] at h
      cases hr : addPlans t fs with
      | error e => simp only [hr] at h; exact Except.noConfusion h
      | ok rest =>
        simp only [hr] at h
        cases h
        obtain ⟨specs, hcorr, happ⟩ := ih rest hr (sch ++ [specColumn spec])
        refine ⟨spec :: specs, List.Forall₂.cons hs hcorr, ?_⟩
        show applyPlan rest (applyStmt sch (Stmt.addColumn t spec)) = _
        rw [show applyStmt sch (Stmt.addColumn t spec) =
          sch ++ [specColumn spec] from rfl, happ]
        simp

/-- Applying the `DROP COLUMN` statements filters the dropped names out. -/
theorem applyPlan_drops (t : String) (cols : List String)
    (sch : List DbColumnInfo) :
    applyPlan (cols.map (fun c => (Stmt.dropColumn t c, Change.dropColumn c)))
        sch =
      sch.filter (fun col => ¬ cols.contains col.column_name) := by
  induction cols generalizing sch with
  | nil => simp [applyPlan]
  | cons c cols ih =>
    rw [List.map_cons]
    show applyPlan _ (applyStmt sch (Stmt.dropColumn t c)) = _
    rw [show applyStmt sch (Stmt.dropColumn t c) =
      sch.filter (fun col => col.column_name ≠ c) from rfl, ih,
      List.filter_filter]
    apply List.filter_congr
    intro col hcol
    by_cases h1 : col.column_name = c <;>
      by_cases h2 : cols.contains col.column_name = true <;>
        simp [h1, h2]

/-- In a catalog with distinct column names, `find?` returns any member with
the sought name. -/
theorem find_name_of_mem_nodup (sch : List DbColumnInfo)
    (hnd : (sch.map (fun c => c.column_name)).Nodup)
    (col : DbColumnInfo) (hmem : col ∈ sch) (n : String)
    (hn : col.column_name = n) :
    sch.find? (fun c => c.column_name = n) = some col := by
  induction sch with
  | nil => cases hmem
  | cons c cs ih =>
    rw [List.map_cons, List.nodup_cons] at hnd
    rcases List.mem_cons.mp hmem with rfl | hmem2
    · rw [List.find?_cons_of_pos _ (by simp [hn])]
    · have hin : n ∈ cs.map (fun x => x.column_name) :=
        hn ▸ List.mem_map_of_mem (fun x => x.column_name) hmem2
      have hne : ¬ c.column_name = n := fun hc => hnd.1 (hc ▸ hin)
      rw [List.find?_cons_of_neg _ (by simp [hne])]
      exact ih hnd.2 hmem2

/-- `find?` by column name commutes with a name-preserving columnwise map. -/
theorem find_map_name_preserving (g : DbColumnInfo → DbColumnInfo)
    (hg : ∀ col, (g col).column_name = col.column_name)
    (sch : List DbColumnInfo) (n : String) :
    (sch.map g).find? (fun c => c.column_name = n) =
      (sch.find? (fun c => c.column_name = n)).map g := by
  induction sch with
  | nil => rfl
  | cons c cs ih =>
    rw [List.map_cons]
    by_cases hc : c.column_name = n
    · rw [List.find?_cons_of_pos _ (by simp [hg, hc]),
        List.find?_cons_of_pos _ (by simp [hc])]
      rfl
    · rw [List.find?_cons_of_neg _ (by simp [hg, hc]),
        List.find?_cons_of_neg _ (by simp [hc])]
      exact ih

/-- The per-field modifier stage preserves the catalog's column names. -/
theorem map_name_applyMods (ms : List Stmt) (sch : List DbColumnInfo) :
    (sch.map (fun col => applyMods ms col)).map (fun c => c.column_name) =
      sch.map (fun c => c.column_name) := by
  induction sch with
  | nil => rfl
  | cons c cs ih => simp only [List.map_cons, applyMods_name, ih]

theorem fieldMigrations_ok_of_mem (t : String) (sch : List DbColumnInfo)
    (prot : List String) (fs : List FieldDefinition)
    (out : List (Stmt × Change))
    (h : fieldMigrations t sch prot fs = .ok out)
    (f : FieldDefinition) (hf : f ∈ fs) :
    ∃ part, fieldMigration t sch prot f = .ok part := by
  induction fs generalizing out with
  | nil => exact absurd hf (List.not_mem_nil f)
  | cons g fs ih =>
    unfold fieldMigrations at h
    cases hg : fieldMigration t sch prot g with
    | error e => simp only [hg] at h; exact Except.noConfusion h
    | ok part =>
      simp only [hg] at h
      cases hr : fieldMigrations t sch prot fs with
      | error e => simp only [hr] at h; exact Except.noConfusion h
      | ok rest =>
        rcases List.mem_cons.mp hf with rfl | hmem
        · exact ⟨part, hg⟩
        · exact ih rest hr hmem

/-- Normalization only ever appends to `fields`. -/
theorem mem_fields_normalize (md : ModelDefinition) (f : FieldDefinition)
    (hf : f ∈ md.fields) : f ∈ (normalizeDefinition md).fields := by
  show f ∈ (match md.ownerField with
    | some o =>
      if o ≠ "" ∧ (md.fields.find? (fun g : FieldDefinition => g.name = o)).isNone then
        md.fields ++ [({ name := o, type := .number, required := false } : FieldDefinition)]
      else md.fields
    | none => md.fields)
  cases md.ownerField with
  | none => exact hf
  | some o =>
    by_cases hc : o ≠ "" ∧ (md.fields.find? (fun g : FieldDefinition => g.name = o)).isNone
    · show f ∈ (if o ≠ "" ∧ (md.fields.find? (fun g : FieldDefinition => g.name = o)).isNone
          then md.fields ++
            [({ name := o, type := .number, required := false } : FieldDefinition)]
          else md.fields)
      rw [if_pos hc]
      exact List.mem_append_left _ hf
    · show f ∈ (if o ≠ "" ∧ (md.fields.find? (fun g : FieldDefinition => g.name = o)).isNone
          then md.fields ++
            [({ name := o, type := .number, required := false } : FieldDefinition)]
          else md.fields)
      rw [if_neg hc]
      exact hf

/-- The relation check is the validation loop's only use of the registry,
so on relation-free fields validation does not depend on it. -/
theorem validateFields_reg_indep (reg reg2 : List String)
    (fs : List FieldDefinition) (seen : List String)
    (hrel : ∀ f ∈ fs, f.type ≠ .relation) :
    validateFields reg fs seen = validateFields reg2 fs seen := by
  induction fs generalizing seen with
  | nil => rfl
  | cons f fs ih =>
    have hcr : ∀ r, checkRelation r f = .ok () := by
      intro r
      unfold checkRelation
      rw [if_neg (hrel f (List.mem_cons_self f fs))]
    unfold validateFields
    simp only [hcr]
    rw [ih (seen ++ [strLower f.name])
      (fun g hg => hrel g (List.mem_cons_of_mem f hg))]

theorem validateModelDefinition_reg_indep (reg reg2 : List String)
    (md : ModelDefinition)
    (hrel : ∀ f ∈ md.fields, f.type ≠ .relation) :
    validateModelDefinition reg md = validateModelDefinition reg2 md := by
  unfold validateModelDefinition
  rw [validateFields_reg_indep reg reg2 md.fields [] hrel]

/-- Remigrating immediately after applying a successful migration plan
plans nothing further (the catalog is converged), and every declared field
has a live column afterwards.  Requires distinct field and live column
names and no relation fields (relation columns never converge: C3's
counterexample). -/
theorem migrate_after_migrate (md : ModelDefinition)
    (cur : List DbColumnInfo) (adds perField : List (Stmt × Change))
    (hadds : addPlans (md.tableName.getD "") (columnsToAddOf md cur) =
      .ok adds)
    (hfm : fieldMigrations (md.tableName.getD "") cur (protectedColumns md)
      md.fields = .ok perField)
    (hndf : (md.fields.map (fun f => f.name)).Nodup)
    (hndc : (cur.map (fun c => c.column_name)).Nodup)
    (hrel : ∀ f ∈ md.fields, f.type ≠ .relation)
    (hdef : ∀ f ∈ md.fields, defaultPresent f = false) :
    migrateTable md (applyPlan (adds ++
        (columnsToDropOf md cur).map (fun c =>
          (Stmt.dropColumn (md.tableName.getD "") c, Change.dropColumn c)) ++
        perField) cur) = .ok [] ∧
    ∀ f ∈ md.fields, f.name ∈
      (applyPlan (adds ++
        (columnsToDropOf md cur).map (fun c =>
          (Stmt.dropColumn (md.tableName.getD "") c, Change.dropColumn c)) ++
        perField) cur).map (fun c => c.column_name) := by
  obtain ⟨specs, hcorr, hA⟩ :=
    applyPlan_addPlans (md.tableName.getD "") (columnsToAddOf md cur) adds
      hadds cur
  have hmods : ∀ p ∈ perField, ∃ c, stmtCol p.1 = some c := by
    intro p hp
    obtain ⟨g, _, htgt⟩ := fieldMigrations_targets _ _ _ _ _ hfm p hp
    exact ⟨g.name, htgt⟩
  rw [applyPlan_append, applyPlan_append, hA, applyPlan_drops,
    applyPlan_mods _ _ hmods]
  have hspecNames : (specs.map specColumn).map (fun c => c.column_name) =
      (columnsToAddOf md cur).map (fun f => f.name) := by
    rw [List.map_map]
    show specs.map (fun sp => (specColumn sp).column_name) = _
    exact specs_names (columnsToAddOf md cur) specs hcorr
  have hadd_sub : ∀ a, a ∈ (columnsToAddOf md cur).map (fun f => f.name) →
      a ∈ md.fields.map (fun f => f.name) := by
    intro a ha
    rw [List.mem_map] at ha ⊢
    obtain ⟨f, hf, rfl⟩ := ha
    exact ⟨f, List.mem_of_mem_filter hf, rfl⟩
  have hndAddNames :
      ((columnsToAddOf md cur).map (fun f => f.name)).Nodup :=
    List.Nodup.sublist (List.Sublist.map _ (List.filter_sublist _)) hndf
  have hdisjAdd : ∀ a ∈ cur.map (fun c => c.column_name),
      a ∉ (columnsToAddOf md cur).map (fun f => f.name) := by
    intro a ha hmem
    rw [List.mem_map] at hmem
    obtain ⟨f, hf, rfl⟩ := hmem
    have hpred := List.of_mem_filter hf
    simp only [decide_eq_true_eq] at hpred
    rw [List.mem_map] at ha
    obtain ⟨col, hcol, hname⟩ := ha
    exact hpred (by
      have : f.name ∈ cur.map (fun c => c.column_name) :=
        hname ▸ List.mem_map_of_mem (fun c => c.column_name) hcol
      simpa using this)
  have hndA : ((cur ++ specs.map specColumn).map
      (fun c => c.column_name)).Nodup := by
    rw [List.map_append, List.nodup_append]
    refine ⟨hndc, ?_, ?_⟩
    · rw [hspecNames]; exact hndAddNames
    · rw [hspecNames]
      intro a ha hb
      exact hdisjAdd a ha hb
  have hndB : (((cur ++ specs.map specColumn).filter
      (fun col => ¬ (columnsToDropOf md cur).contains col.column_name)).map
        (fun c => c.column_name)).Nodup :=
    List.Nodup.sublist (List.Sublist.map _ (List.filter_sublist _)) hndA
  have hdeclNotDropped : ∀ f ∈ md.fields,
      f.name ∉ columnsToDropOf md cur := by
    intro f hf hc
    have hpred := List.of_mem_filter hc
    simp only [decide_eq_true_eq] at hpred
    exact hpred.1 (by
      simpa using List.mem_map_of_mem (fun g => g.name) hf)
  have key : ∀ f ∈ md.fields, ∃ colB,
      ((cur ++ specs.map specColumn).filter
          (fun col => ¬ (columnsToDropOf md cur).contains col.column_name)
        ).find? (fun c => c.column_name = f.name) = some colB ∧
      colB.column_name = f.name ∧
      (¬ (protectedColumns md).contains f.name = true →
        colConverged f (applyMods (perField.map (fun p => p.1)) colB)) := by
    intro f hf
    by_cases hpres : f.name ∈ cur.map (fun c => c.column_name)
    · rw [List.mem_map] at hpres
      obtain ⟨col0, hcol0, hname0⟩ := hpres
      have hfind0 : cur.find? (fun c => c.column_name = f.name) = some col0 :=
        find_name_of_mem_nodup cur hndc col0 hcol0 f.name hname0
      have hmemB : col0 ∈ (cur ++ specs.map specColumn).filter
          (fun col =>
            ¬ (columnsToDropOf md cur).contains col.column_name) := by
        rw [List.mem_filter]
        refine ⟨List.mem_append_left _ hcol0, ?_⟩
        simp only [hname0, decide_eq_true_eq]
        simpa using hdeclNotDropped f hf
      refine ⟨col0, find_name_of_mem_nodup _ hndB col0 hmemB f.name hname0,
        hname0, ?_⟩
      intro hprot
      obtain ⟨part, hpart⟩ := fieldMigrations_ok_of_mem _ _ _ _ _ hfm f hf
      rw [fieldMigrations_apply_at _ cur _ md.fields perField hfm hndf f hf
        part hpart col0 hname0]
      exact fieldMigration_apply_converged _ cur _ f col0 part hfind0 hprot
        (hrel f hf) (hdef f hf) hpart hname0
    · have hfAdd : f ∈ columnsToAddOf md cur := by
        rw [columnsToAddOf, List.mem_filter]
        refine ⟨hf, ?_⟩
        simp only [decide_eq_true_eq]
        simpa using hpres
      obtain ⟨spec, hok, hfindSpec⟩ :=
        findSpec (columnsToAddOf md cur) specs hcorr hndAddNames f hfAdd
      have hnameS : (specColumn spec).column_name = f.name :=
        (mapFieldToSql_ok_spec f spec hok).1
      have hmemS : specColumn spec ∈ specs.map specColumn :=
        List.mem_of_find?_eq_some hfindSpec
      have hmemB : specColumn spec ∈ (cur ++ specs.map specColumn).filter
          (fun col =>
            ¬ (columnsToDropOf md cur).contains col.column_name) := by
        rw [List.mem_filter]
        refine ⟨List.mem_append_right _ hmemS, ?_⟩
        simp only [hnameS, decide_eq_true_eq]
        simpa using hdeclNotDropped f hf
      refine ⟨specColumn spec,
        find_name_of_mem_nodup _ hndB _ hmemB f.name hnameS, hnameS, ?_⟩
      intro hprot
      have hfind0 : cur.find? (fun c => c.column_name = f.name) = none := by
        rw [List.find?_eq_none]
        intro c hc
        simp only [decide_eq_true_eq]
        intro hcc
        exact hpres (hcc ▸ List.mem_map_of_mem (fun x => x.column_name) hc)
      have hpart : fieldMigration (md.tableName.getD "") cur
          (protectedColumns md) f = .ok [] := by
        unfold fieldMigration
        rw [hfind0]
      rw [fieldMigrations_apply_at _ cur _ md.fields perField hfm hndf f hf
        [] hpart (specColumn spec) hnameS]
      show colConverged f (applyMods [] (specColumn spec))
      rw [applyMods_nil]
      exact specColumn_converged f spec hok (hrel f hf) (hdef f hf)
  constructor
  · apply migrateTable_empty
    · apply columnsToAddOf_nil
      intro f hf
      obtain ⟨colB, hfindB, hnameB, _⟩ := key f hf
      rw [List.mem_map]
      exact ⟨applyMods (perField.map (fun p => p.1)) colB,
        List.mem_map_of_mem _ (List.mem_of_find?_eq_some hfindB),
        by rw [applyMods_name, hnameB]⟩
    · apply columnsToDropOf_nil
      intro col2 hcol2
      rw [List.mem_map] at hcol2
      obtain ⟨colB, hmemB, rfl⟩ := hcol2
      rw [applyMods_name]
      rw [List.mem_filter] at hmemB
      obtain ⟨hmemA, hq⟩ := hmemB
      rcases List.mem_append.mp hmemA with hcur | hadded
      · by_cases hdecl :
            colB.column_name ∈ md.fields.map (fun f => f.name)
        · exact Or.inl hdecl
        · right
          by_contra hnp
          simp only [decide_eq_true_eq] at hq
          apply hq
          have hdropped : colB.column_name ∈ columnsToDropOf md cur := by
            rw [columnsToDropOf, List.mem_filter]
            refine ⟨List.mem_map_of_mem (fun c => c.column_name) hcur, ?_⟩
            simp only [decide_eq_true_eq]
            constructor
            · simpa using hdecl
            · simpa using hnp
          simpa using hdropped
      · left
        rw [List.mem_map] at hadded
        obtain ⟨spec2, hspec2, rfl⟩ := hadded
        have hn2 : spec2.name ∈ specs.map (fun sp => sp.name) :=
          List.mem_map_of_mem (fun sp => sp.name) hspec2
        rw [specs_names _ _ hcorr] at hn2
        exact hadd_sub _ hn2
    · intro f hf
      by_cases hp : (protectedColumns md).contains f.name = true
      · exact fieldMigration_protected _ _ _ f hp
      · obtain ⟨colB, hfindB, hnameB, hconv⟩ := key f hf
        refine fieldMigration_converged _ _ _ f
          (applyMods (perField.map (fun p => p.1)) colB) ?_ (hconv hp)
        rw [find_map_name_preserving _ (fun c => applyMods_name _ c) _ f.name,
          hfindB]
        rfl
  · intro f hf
    obtain ⟨colB, hfindB, hnameB, _⟩ := key f hf
    rw [List.mem_map]
    exact ⟨applyMods (perField.map (fun p => p.1)) colB,
      List.mem_map_of_mem _ (List.mem_of_find?_eq_some hfindB),
      by rw [applyMods_name, hnameB]⟩

/-- C3.  Republish idempotence for relation-free, default-free definitions:
when a publish succeeds and the normalized definition has nonempty,
duplicate-free field names that avoid the system columns, no relation
fields, no effective declared defaults, and the live table (if any) has
duplicate-free column names, publishing the same definition again
immediately reports the schema up to date with an empty change list, and
executes no DDL (tables and DDL log unchanged).  Relation fields break the
claim via `mapDbTypeToFieldType` (integer classifies as number), and
string/boolean/date defaults break it via PostgreSQL's canonicalized
default expressions mismatching the quoted text forever. -/
theorem idempotent_publish (md : ModelDefinition) (s : SysState)
    (r1 : PubResult) (s1 : SysState)
    (hndf : ((normalizeDefinition md).fields.map (fun f => f.name)).Nodup)
    (hrel : ∀ f ∈ (normalizeDefinition md).fields, f.type ≠ .relation)
    (hsys : ∀ f ∈ (normalizeDefinition md).fields,
      f.name ∉ (["id", "createdAt", "updatedAt"] : List String))
    (hdef : ∀ f ∈ (normalizeDefinition md).fields, defaultPresent f = false)
    (hfne : (normalizeDefinition md).fields ≠ [])
    (hndc : ∀ sch, lookupA s.tables
        ((normalizeDefinition md).tableName.getD "") = some sch →
      (sch.map (fun c => c.column_name)).Nodup)
    (hpub : publishModel md false s = (.ok r1, s1)) :
    (publishModel md false s1).1 =
      .ok { message := .upToDate (normalizeDefinition md).name,
            changes := some [], model := normalizeDefinition md } ∧
    (publishModel md false s1).2.tables = s1.tables ∧
    (publishModel md false s1).2.ddlLog = s1.ddlLog := by
  have hrelmd : ∀ f ∈ md.fields, f.type ≠ .relation :=
    fun f hf => hrel f (mem_fields_normalize md f hf)
  simp only [publishModel] at hpub ⊢
  rw [validateModelDefinition_reg_indep (registryNames s1) (registryNames s)
    md hrelmd]
  cases hval : validateModelDefinition (registryNames s) md with
  | error e =>
    simp only [hval] at hpub
    exact Except.noConfusion (congrArg Prod.fst hpub)
  | ok u =>
    simp only [hval] at hpub ⊢
    by_cases hcur : ((lookupA s.tables
        ((normalizeDefinition md).tableName.getD "")).getD []).length = 0
    · rw [if_pos hcur] at hpub
      cases hct : createTable (normalizeDefinition md) with
      | error e =>
        simp only [hct] at hpub
        exact Except.noConfusion (congrArg Prod.fst hpub)
      | ok pr =>
        obtain ⟨stmts, specs⟩ := pr
        simp only [hct] at hpub
        rw [if_neg Bool.false_ne_true] at hpub
        rw [Prod.mk.injEq, Except.ok.injEq] at hpub
        obtain ⟨rfl, rfl⟩ := hpub
        have hms : mapFieldsToSpecs (normalizeDefinition md).fields =
            .ok specs := by
          simp only [createTable] at hct
          split at hct
          · exact Except.noConfusion hct
          · cases hms0 : mapFieldsToSpecs (normalizeDefinition md).fields with
            | error e => simp only [hms0] at hct; exact Except.noConfusion hct
            | ok specs0 =>
              simp only [hms0] at hct
              cases hct
              rfl
        simp only [lookupA_setA_self, Option.getD_some]
        rw [if_neg (show ¬ (schemaAfterCreate specs).length = 0 by
          simp [schemaAfterCreate, systemColumns])]
        rw [migrate_after_create (normalizeDefinition md) specs hms hndf
          hrel hsys hdef]
        simp
    · rw [if_neg hcur] at hpub
      cases hmt : migrateTable (normalizeDefinition md)
          ((lookupA s.tables
            ((normalizeDefinition md).tableName.getD "")).getD []) with
      | error e =>
        simp only [hmt] at hpub
        exact Except.noConfusion (congrArg Prod.fst hpub)
      | ok plan =>
        simp only [hmt] at hpub
        by_cases hpl : plan.length = 0
        · rw [if_pos hpl] at hpub
          rw [Prod.mk.injEq, Except.ok.injEq] at hpub
          obtain ⟨rfl, rfl⟩ := hpub
          have hplan0 : plan = [] := List.length_eq_zero.mp hpl
          subst hplan0
          dsimp only
          rw [if_neg hcur, hmt]
          simp
        · rw [if_neg hpl, if_neg Bool.false_ne_true] at hpub
          rw [Prod.mk.injEq, Except.ok.injEq] at hpub
          obtain ⟨rfl, rfl⟩ := hpub
          have hndcur : (((lookupA s.tables
              ((normalizeDefinition md).tableName.getD "")).getD []).map
                (fun c => c.column_name)).Nodup := by
            cases hlk : lookupA s.tables
                ((normalizeDefinition md).tableName.getD "") with
            | none => rw [hlk] at hcur; exact absurd rfl hcur
            | some sch => exact hndc sch hlk
          have hdec : ∃ adds perField,
              addPlans ((normalizeDefinition md).tableName.getD "")
                (columnsToAddOf (normalizeDefinition md)
                  ((lookupA s.tables
                    ((normalizeDefinition md).tableName.getD "")).getD [])) =
                .ok adds ∧
              fieldMigrations ((normalizeDefinition md).tableName.getD "")
                ((lookupA s.tables
                  ((normalizeDefinition md).tableName.getD "")).getD [])
                (protectedColumns (normalizeDefinition md))
                (normalizeDefinition md).fields = .ok perField ∧
              plan = adds ++
                (columnsToDropOf (normalizeDefinition md)
                    ((lookupA s.tables
                      ((normalizeDefinition md).tableName.getD
                        "")).getD [])).map (fun c =>
                  (Stmt.dropColumn
                    ((normalizeDefinition md).tableName.getD "") c,
                   Change.dropColumn c)) ++ perField := by
            simp only [migrateTable] at hmt
            cases h1 : addPlans ((normalizeDefinition md).tableName.getD "")
                (columnsToAddOf (normalizeDefinition md)
                  ((lookupA s.tables
                    ((normalizeDefinition md).tableName.getD
                      "")).getD [])) with
            | error e => simp only [h1] at hmt; exact Except.noConfusion hmt
            | ok adds =>
              simp only [h1] at hmt
              cases h2 : fieldMigrations
                  ((normalizeDefinition md).tableName.getD "")
                  ((lookupA s.tables
                    ((normalizeDefinition md).tableName.getD "")).getD [])
                  (protectedColumns (normalizeDefinition md))
                  (normalizeDefinition md).fields with
              | error e => simp only [h2] at hmt; exact Except.noConfusion hmt
              | ok perField =>
                simp only [h2] at hmt
                cases hmt
                exact ⟨adds, perField, rfl, rfl, rfl⟩
          obtain ⟨adds, perField, hadds2, hfm2, rfl⟩ := hdec
          obtain ⟨hmig2, hpresence⟩ := migrate_after_migrate
            (normalizeDefinition md)
            ((lookupA s.tables
              ((normalizeDefinition md).tableName.getD "")).getD [])
            adds perField hadds2 hfm2 hndf hndcur hrel hdef
          have hlen2 : ¬ ((applyPlan (adds ++
              (columnsToDropOf (normalizeDefinition md)
                  ((lookupA s.tables
                    ((normalizeDefinition md).tableName.getD
                      "")).getD [])).map (fun c =>
                (Stmt.dropColumn
                  ((normalizeDefinition md).tableName.getD "") c,
                 Change.dropColumn c)) ++ perField)
              ((lookupA s.tables
                ((normalizeDefinition md).tableName.getD
                  "")).getD [])).length = 0) := by
            intro h0
            obtain ⟨f0, hf0⟩ := List.exists_mem_of_ne_nil _ hfne
            have hx := hpresence f0 hf0
            rw [List.length_eq_zero.mp h0] at hx
            simp at hx
          simp only [lookupA_setA_self, Option.getD_some]
          rw [if_neg hlen2]
          rw [hmig2]
          simp

/-- The state after publishing `Product` into the empty state. -/
def prodS1 : SysState := (publishModel mdProductInput false emptyState).2

/-- Witness for C3: publishing the e2e `Product` definition twice from the
empty state — the second publish reports up to date with an empty change
list and leaves the tables and DDL log untouched. -/
theorem idempotent_publish_witness :
    (publishModel mdProductInput false prodS1).1 =
      .ok { message := .upToDate (normalizeDefinition mdProductInput).name,
            changes := some [],
            model := normalizeDefinition mdProductInput } ∧
    (publishModel mdProductInput false prodS1).2.tables = prodS1.tables ∧
    (publishModel mdProductInput false prodS1).2.ddlLog = prodS1.ddlLog :=
  idempotent_publish mdProductInput emptyState
    { message := .created "Product", changes := none,
      model := normalizeDefinition mdProductInput }
    prodS1 (by decide) (by decide) (by decide) (by decide) (by decide)
    (fun sch h => Option.noConfusion h) (by decide)

/-- An `Author` model for the relation counterexample. -/
def mdAuthor : ModelDefinition :=
  { name := "Author",
    fields := [{ name := "fullName", type := .string }] }

/-- A `Book` model with a relation field targeting `Author`. -/
def mdBook : ModelDefinition :=
  { name := "Book",
    fields := [{ name := "title", type := .string },
               { name := "authorId", type := .relation,
                 targetModel := some "Author" }] }

/-- The state after publishing `Author` into the empty state. -/
def stateAuthor : SysState := (publishModel mdAuthor false emptyState).2

/-- The state after then publishing `Book`. -/
def stateBook : SysState := (publishModel mdBook false stateAuthor).2

/-- A relation-free `Note` model with a declared string default. -/
def mdNote : ModelDefinition :=
  { name := "Note",
    fields := [{ name := "label", type := .string,
                 default := some (JsValue.vStr "x") }] }

/-- The state after publishing `Note` into the empty state. -/
def stateNote : SysState := (publishModel mdNote false emptyState).2

/-- The state after republishing `Note` once. -/
def stateNote2 : SysState := (publishModel mdNote false stateNote).2

/-- Counterexample to C3 as stated, on two independent axes.  (1) A model
with a relation field is never up to date on republish: `Book`'s relation
column is created as `integer`, which the migrate loop classifies as
`number` and therefore plans a retype against the declared `relation` type
on every republish.  (2) Even relation-free, the literal default comparison
breaks idempotence: `Note`'s string default is quoted as the SQL text
`'x'` but PostgreSQL reports the stored expression canonicalized, so the
comparison mismatches and the republish plans `SET DEFAULT` — and the next
republish plans it again (it never converges).  In both cases the second
publish succeeds but reports `migrated` with one change, not the no-change
up-to-date response. -/
theorem idempotent_publish_cx :
    (publishModel mdBook false stateAuthor).1 =
      .ok { message := .created "Book", changes := none,
            model := normalizeDefinition mdBook } ∧
    (publishModel mdBook false stateBook).1 =
      .ok { message := .migrated "Book" 1,
            changes := some [Change.retype "authorId" FieldType.number
              FieldType.relation],
            model := normalizeDefinition mdBook } ∧
    (publishModel mdNote false emptyState).1 =
      .ok { message := .created "Note", changes := none,
            model := normalizeDefinition mdNote } ∧
    (publishModel mdNote false stateNote).1 =
      .ok { message := .migrated "Note" 1,
            changes := some [Change.setDefault "label" "\x27x\x27"],
            model := normalizeDefinition mdNote } ∧
    (publishModel mdNote false stateNote2).1 =
      .ok { message := .migrated "Note" 1,
            changes := some [Change.setDefault "label" "\x27x\x27"],
            model := normalizeDefinition mdNote } := by
  decide

end CrudRbac
